import Mathlib

/-!
# Verification of the RESP codec, command router and storage engine

A shallow embedding of the core of a small Redis-compatible server
(files `src/resp.rs`, `src/cmd.rs`, `src/storage/inmemory.rs`,
`src/expiry.rs`, `src/conn.rs`, `src/constants.rs`).

Modelling conventions:
* Byte strings (`Bytes`, `&[u8]`, Rust `String` payloads) are `List Nat`
  with each byte `< 256`.
* Rust `usize` arithmetic that can overflow is reduced `% 2^64`
  (two's-complement wrap-around), `u128` arithmetic `% 2^128`, and the
  `as i64` cast plus `i64::neg` are modelled as wrapping operations.
* Fallible Rust code returns `.err`; a Rust panic (failed `expect`,
  out-of-bounds indexing or `Bytes::slice`, arithmetic underflow on
  `usize` subtraction) is the distinguished outcome `.crash`.
* Reads of the system clock are modelled by an explicit `now` argument
  (milliseconds since the epoch); the clock is assumed readable, so the
  `SystemTimeError` path is not modelled.
* Loops and recursion over a byte buffer use explicit fuel that is
  always initialised large enough (the buffer length), so that all
  definitions are structurally recursive and kernel-computable.
-/

/-- ASCII carriage return. -/
def CR : Nat := 13

/-- ASCII line feed. -/
def LF : Nat := 10

/-- `usize` modulus (64-bit). -/
def USIZE : Nat := 2 ^ 64

/-- `u128` modulus. -/
def U128 : Nat := 2 ^ 128

/-- Whether a byte is an ASCII decimal digit `0`..`9`. -/
def isDigitB (b : Nat) : Bool := 48 ≤ b ∧ b ≤ 57

/-- Continuation byte of a UTF-8 sequence: `0x80..=0xBF`. -/
def isCont (b : Nat) : Bool := 0x80 ≤ b ∧ b ≤ 0xBF

/-- Faithful model of Rust's UTF-8 validation (`String::from_utf8`):
accepts exactly well-formed UTF-8 (no overlong forms, no surrogates,
no code points above U+10FFFF). -/
def validUtf8 : List Nat → Bool
  | [] => true
  | b :: rest =>
    if b ≤ 0x7F then validUtf8 rest
    else if 0xC2 ≤ b ∧ b ≤ 0xDF then
      match rest with
      | c1 :: rest1 => isCont c1 && validUtf8 rest1
      | [] => false
    else if b = 0xE0 then
      match rest with
      | c1 :: c2 :: rest2 => (0xA0 ≤ c1 ∧ c1 ≤ 0xBF : Bool) && isCont c2 && validUtf8 rest2
      | _ => false
    else if (0xE1 ≤ b ∧ b ≤ 0xEC) ∨ b = 0xEE ∨ b = 0xEF then
      match rest with
      | c1 :: c2 :: rest2 => isCont c1 && isCont c2 && validUtf8 rest2
      | _ => false
    else if b = 0xED then
      match rest with
      | c1 :: c2 :: rest2 => (0x80 ≤ c1 ∧ c1 ≤ 0x9F : Bool) && isCont c2 && validUtf8 rest2
      | _ => false
    else if b = 0xF0 then
      match rest with
      | c1 :: c2 :: c3 :: rest3 =>
        (0x90 ≤ c1 ∧ c1 ≤ 0xBF : Bool) && isCont c2 && isCont c3 && validUtf8 rest3
      | _ => false
    else if 0xF1 ≤ b ∧ b ≤ 0xF3 then
      match rest with
      | c1 :: c2 :: c3 :: rest3 => isCont c1 && isCont c2 && isCont c3 && validUtf8 rest3
      | _ => false
    else if b = 0xF4 then
      match rest with
      | c1 :: c2 :: c3 :: rest3 =>
        (0x80 ≤ c1 ∧ c1 ≤ 0x8F : Bool) && isCont c2 && isCont c3 && validUtf8 rest3
      | _ => false
    else false

/-- RESP decode failures (`errors.rs`, `enum RESPError`).  Byte-list
payloads stand for the `String` payloads of the Rust variants. -/
inductive RespError where
  | fromUtf8Error : List Nat → RespError
  | unsupportedType : Nat → RespError
  | crMissing : RespError
  | lfMissing : RespError
  | crlfNotAtEnd : RespError
  | negativeLength : RespError
  | integerParseError : List Nat → RespError
deriving Repr, DecidableEq

/-- Outcome of a RESP-level computation: success, a typed `RESPError`,
or a Rust panic / out-of-bounds access (`.crash`). -/
inductive RResult (α : Type) where
  | ok : α → RResult α
  | err : RespError → RResult α
  | crash : RResult α
deriving Repr, DecidableEq

/-- A decoded RESP value (`resp.rs`, `enum Value`). -/
inductive RValue where
  | simpleString : List Nat → RValue
  | bulkString : List Nat → RValue
  | nullBulkString : RValue
  | integer : Int → RValue
  | array : List RValue → RValue
  | nullArray : RValue
  | error : List Nat → RValue
deriving Repr

/-- The digit-scanning loop of `Message::parse_len` (`resp.rs`).
`i` is the scan position (the Rust raw pointer offset), `bytesRead` the
running byte count, `len` the `usize` length accumulator.  `i` and
`bytesRead` both start at 1 and move in lock-step.  Reading past the end
of the buffer is undefined behaviour in the Rust source (raw pointers);
we model it as `.crash`.  The accumulator wraps like release-mode
`usize` arithmetic.  On a non-digit the Rust code returns
`IntegerParseError(String::from_utf8(bytes[1..bytes_read])?)`; the `?`
turns an invalid-UTF-8 prefix into `RESPError::FromUtf8Error`. -/
def parseLenLoop (bytes : List Nat) : Nat → Nat → Nat → Nat → RResult (Option Nat × Nat)
  | 0, _, _, _ => .crash
  | fuel + 1, i, bytesRead, len =>
    match bytes[i]? with
    | none => .crash
    | some b =>
      if b = CR then
        match bytes[i + 1]? with
        | none => .crash
        | some b1 => if b1 = LF then .ok (some len, bytesRead + 2) else .err .lfMissing
      else
        if b < 48 ∨ 57 < b then
          let payload := (bytes.drop 1).take bytesRead
          if validUtf8 payload then .err (.integerParseError payload)
          else .err (.fromUtf8Error payload)
        else
          parseLenLoop bytes fuel (i + 1) (bytesRead + 1) ((len * 10 + (b - 48)) % USIZE)

/-- `Message::parse_len` (`resp.rs`): skips the type byte (never read),
handles the `-1` null sentinel, otherwise scans decimal digits up to CR
and checks the following LF.  Returns the parsed length (`none` for the
null sentinel) and the number of bytes consumed including the type byte
and the CRLF. -/
def parseLen (bytes : List Nat) : RResult (Option Nat × Nat) :=
  match bytes[1]? with
  | none => .crash
  | some b =>
    if b = 45 then
      match bytes[2]? with
      | none => .crash
      | some b2 =>
        if b2 = 49 then
          match bytes[3]? with
          | none => .crash
          | some b3 =>
            if b3 = CR then
              match bytes[4]? with
              | none => .crash
              | some b4 => if b4 = LF then .ok (none, 5) else .err .lfMissing
            else .err .negativeLength
        else .err .negativeLength
    else parseLenLoop bytes bytes.length 1 1 0

/-- Index of the first occurrence of byte `t` (models `memmem::find_iter(_, t).next()`). -/
def firstIdx (t : Nat) : List Nat → Option Nat
  | [] => none
  | b :: rest => if b = t then some 0 else (firstIdx t rest).map (· + 1)

/-- The slice `l[a..b]` of a byte buffer (panics are checked by callers). -/
def sliceL (l : List Nat) (a b : Nat) : List Nat := (l.drop a).take (b - a)

/-- `Message::deserialize_simple_string` (`resp.rs`): contents run from
byte 1 up to the first CR, which must be immediately followed by the
first LF.  `Bytes::slice(1..cr_pos)` panics when `cr_pos < 1`. -/
def deserializeSimpleString (bytes : List Nat) : RResult (RValue × Nat) :=
  match firstIdx CR bytes with
  | none => .err .crMissing
  | some crPos =>
    match firstIdx LF bytes with
    | none => .err .lfMissing
    | some lfPos =>
      if lfPos ≠ crPos + 1 then .err .crlfNotAtEnd
      else if 1 ≤ crPos then .ok (.simpleString (sliceL bytes 1 crPos), lfPos + 1)
      else .crash

/-- `Message::deserialize_bulk_string` (`resp.rs`): length-prefixed; on
the `-1` sentinel yields the null bulk string.  `Bytes::slice(start..end)`
panics when `end` exceeds the buffer length.  The trailing CRLF is
counted but not inspected, exactly as in the source. -/
def deserializeBulkString (bytes : List Nat) : RResult (RValue × Nat) :=
  match parseLen bytes with
  | .crash => .crash
  | .err e => .err e
  | .ok (none, _) => .ok (.nullBulkString, 5)
  | .ok (some len, start) =>
    let e := start + len
    if e ≤ bytes.length then .ok (.bulkString (sliceL bytes start e), e + 2) else .crash

/-- `n` interpreted as an `i64` (the Rust `as i64` cast): two's-complement
wrap-around of the low 64 bits. -/
def wrapI64 (n : Nat) : Int :=
  if n % USIZE < 2 ^ 63 then ((n % USIZE : Nat) : Int) else ((n % USIZE : Nat) : Int) - 2 ^ 64

/-- Wrapping `i64` negation (`i64::neg`, release-profile two's-complement
semantics; `i64::MIN` maps to itself). -/
def negWrapI64 (x : Int) : Int := ((-x + 2 ^ 63) % (2 ^ 64 : Int)) - 2 ^ 63

/-- `Message::deserialize_integer` (`resp.rs`): reads `bytes[1]`
(panicking when absent), strips an optional sign by re-using
`parse_len`, and calls `expect` on the result — so a `-1` sentinel after
the sign position is a panic (`.crash`). -/
def deserializeInteger (bytes : List Nat) : RResult (RValue × Nat) :=
  match bytes[1]? with
  | none => .crash
  | some b =>
    if b = 43 then
      match parseLen (bytes.drop 1) with
      | .crash => .crash
      | .err e => .err e
      | .ok (none, _) => .crash
      | .ok (some v, br) => .ok (.integer (wrapI64 v), 1 + br)
    else if b = 45 then
      match parseLen (bytes.drop 1) with
      | .crash => .crash
      | .err e => .err e
      | .ok (none, _) => .crash
      | .ok (some v, br) => .ok (.integer (negWrapI64 (wrapI64 v)), 1 + br)
    else
      match parseLen bytes with
      | .crash => .crash
      | .err e => .err e
      | .ok (none, _) => .crash
      | .ok (some v, br) => .ok (.integer (wrapI64 v), br)

/-- `Message::deserialize_error` (`resp.rs`): delegates to the
simple-string parser and re-tags the value; the `panic!` branch on a
non-simple-string success is unreachable but modelled as `.crash`. -/
def deserializeError (bytes : List Nat) : RResult (RValue × Nat) :=
  match deserializeSimpleString bytes with
  | .ok (.simpleString v, n) => .ok (.error v, n)
  | .ok _ => .crash
  | .err e => .err e
  | .crash => .crash

/-- The element loop of `Message::deserialize_array` (`resp.rs`):
deserializes `n` elements in order, each advancing the running offset by
the bytes it consumed.  `deser` is the recursive deserializer at the
next fuel level. -/
def deserializeElems (deser : List Nat → RResult (RValue × Nat)) :
    Nat → List Nat → Nat → RResult (List RValue × Nat)
  | 0, _, offset => .ok ([], offset)
  | n + 1, bytes, offset =>
    match deser (bytes.drop offset) with
    | .ok (v, br) =>
      match deserializeElems deser n bytes (offset + br) with
      | .ok (vs, off) => .ok (v :: vs, off)
      | .err e => .err e
      | .crash => .crash
    | .err e => .err e
    | .crash => .crash

/-- `Message::deserialize` (`resp.rs`): dispatch on the type byte
(`bytes[0]`, a panic when the buffer is empty; an unsupported byte is a
typed error).  Arrays recurse through `deserialize_array`, here inlined
with one unit of fuel consumed per nesting level. -/
def deserializeF : Nat → List Nat → RResult (RValue × Nat)
  | 0, _ => .crash
  | fuel + 1, bytes =>
    match bytes[0]? with
    | none => .crash
    | some b =>
      if b = 43 then deserializeSimpleString bytes
      else if b = 36 then deserializeBulkString bytes
      else if b = 58 then deserializeInteger bytes
      else if b = 42 then
        match parseLen bytes with
        | .crash => .crash
        | .err e => .err e
        | .ok (none, _) => .ok (.nullArray, 5)
        | .ok (some n, offset) =>
          match deserializeElems (deserializeF fuel) n bytes offset with
          | .ok (vs, off) => .ok (.array vs, off)
          | .err e => .err e
          | .crash => .crash
      else if b = 45 then deserializeError bytes
      else .err (.unsupportedType b)

/-- Top-level `Message::deserialize` on a buffer; the fuel
`bytes.length` dominates the possible nesting depth because every
recursion step strictly consumes part of the buffer. -/
def deserialize (bytes : List Nat) : RResult (RValue × Nat) :=
  deserializeF bytes.length bytes

/-- Big-endian base-10 digit values of `n` (fuelled so that the
definition is structural and kernel-computable; any `fuel > n` is
enough, see `digitsOfAux_spec`). -/
def digitsOfAux : Nat → Nat → List Nat
  | 0, _ => []
  | fuel + 1, n => if n < 10 then [n] else digitsOfAux fuel (n / 10) ++ [n % 10]

/-- The canonical ASCII decimal representation of `n` (no sign, no
leading zeros), as produced by Rust's `Display` for unsigned integers
in `format!`. -/
def natDigits (n : Nat) : List Nat := (digitsOfAux (n + 1) n).map (· + 48)

/-- The numeric value of a big-endian ASCII digit run (exact, no wrap):
the mathematical reading of a decimal literal. -/
def decVal (ds : List Nat) : Nat := ds.foldl (fun a d => a * 10 + (d - 48)) 0

/-! ## Storage engine (`types.rs`, `storage/generic.rs`, `storage/inmemory.rs`)

Keys and values are Rust `String`s; they are modelled by their UTF-8
byte lists (the conversion `String::from_utf8` is byte-preserving and
injective, so byte-list equality is string equality).  The two hash
maps are modelled as association lists with upsert semantics; the
expiry map stores `ExpirationTime = Option<u128>` values, exactly as
`InMemoryExpiryTimeHashMap = HashMap<StorageKey, ExpirationTime>`. -/

/-- `HashMap::insert`: replace the value of an existing key, else add the entry. -/
def alInsert {β : Type} : List (List Nat × β) → List Nat → β → List (List Nat × β)
  | [], k, v => [(k, v)]
  | (k', v') :: rest, k, v =>
    if k' = k then (k, v) :: rest else (k', v') :: alInsert rest k v

/-- `HashMap::remove` (keys are unique, so removing every match is equivalent). -/
def alRemove {β : Type} : List (List Nat × β) → List Nat → List (List Nat × β)
  | [], _ => []
  | (k', v') :: rest, k =>
    if k' = k then alRemove rest k else (k', v') :: alRemove rest k

/-- `HashMap::get`. -/
def alLookup {β : Type} : List (List Nat × β) → List Nat → Option β
  | [], _ => none
  | (k', v') :: rest, k => if k' = k then some v' else alLookup rest k

/-- The two-map storage (`InMemoryStorage = (KV, KE)`): primary
key→value map and key→expiry map. -/
structure Storage where
  kv : List (List Nat × List Nat)
  ke : List (List Nat × Option Nat)
deriving Repr, DecidableEq

/-- The empty storage (`Storage::new`). -/
def emptyStorage : Storage := ⟨[], []⟩

/-- `Crud::create for InMemoryStorage` (`storage/inmemory.rs`): always
upserts the primary map; upserts the expiry map (with the `Option`
value itself) only when `expiry.is_some()`.  When `expiry` is `None`
the expiry map is left untouched — a stale entry is *not* removed. -/
def storageCreate (st : Storage) (k v : List Nat) (expiry : Option Nat) : Storage :=
  { kv := alInsert st.kv k v
    ke := if expiry.isSome then alInsert st.ke k expiry else st.ke }

/-- `Crud::read for InMemoryStorage` (`storage/inmemory.rs`): value from
the primary map; the expiry looked up independently, `None` when the
key is absent from the expiry map. -/
def storageRead (st : Storage) (k : List Nat) : Option (List Nat × Option Nat) :=
  match alLookup st.kv k with
  | none => none
  | some v =>
    some (v, match alLookup st.ke k with
             | some e => e
             | none => none)

/-- `Crud::delete for InMemoryStorage` (`storage/inmemory.rs`): removes
the key from both maps unconditionally. -/
def storageDelete (st : Storage) (k : List Nat) : Storage :=
  { kv := alRemove st.kv k, ke := alRemove st.ke k }

/-- The storage effect of `handle_get` (`cmd.rs` lines 254-280): when
the key is present with an expiry strictly in the past, the key is
deleted (passive expiration); otherwise the storage is unchanged. -/
def getEffect (st : Storage) (k : List Nat) (now : Nat) : Storage :=
  match storageRead st k with
  | some (_, some t) => if now > t then storageDelete st k else st
  | _ => st

/-- One pass of the `eviction_loop` body (`expiry.rs`): iterate a
snapshot (`ke.clone()`) of the expiry map; for each entry call
`expiry.expect("Expected Some(expiry)")` — a `None` value is a panic,
modelled as the `none` outcome — and delete the key from both maps when
`now` is strictly greater than the expiry. -/
def sweepGo (now : Nat) : List (List Nat × Option Nat) → Storage → Option Storage
  | [], st => some st
  | (k, e) :: rest, st =>
    match e with
    | none => none
    | some t => sweepGo now rest (if now > t then storageDelete st k else st)

/-- One sweep of the eviction loop over the current expiry map
(`expiry.rs` lines 36-46); `none` means the sweeper would panic. -/
def evictionSweep (st : Storage) (now : Nat) : Option Storage :=
  sweepGo now st.ke st

/-- Storage states reachable from the empty storage through the storage
engine's operations: `create`, `delete`, GET-driven passive deletion,
and successful eviction sweeps. -/
inductive Reachable : Storage → Prop where
  | empty : Reachable emptyStorage
  | create {st} (k v : List Nat) (e : Option Nat) :
      Reachable st → Reachable (storageCreate st k v e)
  | delete {st} (k : List Nat) : Reachable st → Reachable (storageDelete st k)
  | passive {st} (k : List Nat) (now : Nat) : Reachable st → Reachable (getEffect st k now)
  | sweep {st st'} (now : Nat) :
      Reachable st → evictionSweep st now = some st' → Reachable st'

/-! ## Command router (`cmd.rs`) -/

/-- Router-level errors (`errors.rs`, `enum CmdError`; byte-list
payloads stand for the Rust `String` payloads). -/
inductive CmdError where
  | inputTooShort : List Nat → CmdError
  | crlfNotAtEnd : CmdError
  | nullArray : CmdError
  | cmdNotArray : CmdError
  | emptyArray : CmdError
  | notAllBulk : CmdError
  | missingArg : CmdError
  | wrongArg : List Nat → CmdError
  | parseIntError : List Nat → CmdError
  | fromUtf8 : List Nat → CmdError
  | respError : RespError → CmdError
deriving Repr, DecidableEq

/-- Outcome of a router-level computation (`.crash` = Rust panic). -/
inductive CmdOut (α : Type) where
  | ok : α → CmdOut α
  | err : CmdError → CmdOut α
  | crash : CmdOut α
deriving Repr, DecidableEq

/-- `u8::to_ascii_uppercase` mapped over a byte string. -/
def upperB (bs : List Nat) : List Nat :=
  bs.map fun b => if 97 ≤ b ∧ b ≤ 122 then b - 32 else b

/-- `b"ECHO"`. -/
def wECHO : List Nat := [69, 67, 72, 79]
/-- `b"GET"`. -/
def wGET : List Nat := [71, 69, 84]
/-- `b"PING"`. -/
def wPING : List Nat := [80, 73, 78, 71]
/-- `b"SET"`. -/
def wSET : List Nat := [83, 69, 84]
/-- `b"EX"`. -/
def wEX : List Nat := [69, 88]
/-- `b"PX"`. -/
def wPX : List Nat := [80, 88]

/-- `constants.rs`: the supported commands, in source order. -/
def COMMANDS : List (List Nat) := [wECHO, wGET, wPING, wSET]

/-- `is_cmd` (`cmd.rs`): whether `word` equals one of the command names
ignoring ASCII case (`eq_ignore_ascii_case`). -/
def isCmd (word : List Nat) : Bool :=
  COMMANDS.any fun c => upperB word = upperB c

/-- The reply `$len\r\n<arg>\r\n` built by the handlers via
`format!("${}\r\n{argument}\r\n", argument.len())`; `len` is the UTF-8
byte length. -/
def bulkReply (arg : List Nat) : List Nat :=
  36 :: natDigits arg.length ++ [13, 10] ++ arg ++ [13, 10]

/-- The `+PONG\r\n` reply. -/
def pongReply : List Nat := [43, 80, 79, 78, 71, 13, 10]

/-- The `$-1\r\n` null-bulk-string reply. -/
def nullBulkReply : List Nat := [36, 45, 49, 13, 10]

/-- The `+OK\r\n` reply. -/
def okReply : List Nat := [43, 79, 75, 13, 10]

/-- `handle_echo` (`cmd.rs`): exactly two words (otherwise the handler
panics), the argument must be a bulk string (otherwise panic) and valid
UTF-8 (otherwise a typed error); replies with the argument as a bulk
string. -/
def handleEcho (words : List RValue) : CmdOut (List Nat) :=
  if words.length = 2 then
    match words.get? 1 with
    | some (.bulkString arg) =>
      if validUtf8 arg then .ok (bulkReply arg) else .err (.fromUtf8 arg)
    | _ => .crash
  else .crash

/-- `handle_ping` (`cmd.rs`): one word replies `+PONG\r\n`; two words
echo the argument as a bulk string; any other length panics. -/
def handlePing (words : List RValue) : CmdOut (List Nat) :=
  if words.length = 1 then .ok pongReply
  else if words.length = 2 then
    match words.get? 1 with
    | some (.bulkString arg) =>
      if validUtf8 arg then .ok (bulkReply arg) else .err (.fromUtf8 arg)
    | _ => .crash
  else .crash

/-- `handle_get` (`cmd.rs`): exactly two words (otherwise panic); the
key must be a bulk string (otherwise panic) and valid UTF-8; the reply
is the null bulk string for an absent key, the value as a bulk string
for a live key, and for an expired key (`now > expiry`, strictly) the
null bulk string with the key deleted from both maps after the reply is
formatted. -/
def handleGet (words : List RValue) (st : Storage) (now : Nat) :
    CmdOut (List Nat × Storage) :=
  if words.length = 2 then
    match words.get? 1 with
    | some (.bulkString karg) =>
      if validUtf8 karg then
        match storageRead st karg with
        | none => .ok (nullBulkReply, st)
        | some (v, none) => .ok (bulkReply v, st)
        | some (v, some t) =>
          if now > t then .ok (nullBulkReply, storageDelete st karg)
          else .ok (bulkReply v, st)
      else .err (.fromUtf8 karg)
    | _ => .crash
  else .crash

/-- Rust `str::parse::<u128>`: optional leading `+`, then one or more
decimal digits, value below `2^128`; anything else is a
`ParseIntError`. -/
def parseU128 (s : List Nat) : Option Nat :=
  let ds := match s with
            | 43 :: rest => rest
            | _ => s
  if ds ≠ [] ∧ ds.all isDigitB then
    let v := decVal ds
    if v < U128 then some v else none
  else none

/-- `handle_set` (`cmd.rs`): at least two words (otherwise panic); key
(`words[1]`) and value (`words[2]`, an out-of-bounds panic when words
has exactly two elements) must be bulk strings and valid UTF-8.  With
exactly five words the TTL value is parsed first (`ParseIntError` on
failure), then the unit keyword is matched case-insensitively: `EX`
multiplies by 1000 (to milliseconds), `PX` leaves it, anything else is
`WrongArg`; the absolute expiry is `now + ttl` in `u128` arithmetic.
Finally `create` upserts the storage and the reply is `+OK\r\n`. -/
def handleSet (words : List RValue) (st : Storage) (now : Nat) :
    CmdOut (List Nat × Storage) :=
  if 2 ≤ words.length then
    match words.get? 1 with
    | some (.bulkString karg) =>
      match words.get? 2 with
      | some (.bulkString varg) =>
        if validUtf8 karg then
          if validUtf8 varg then
            if words.length = 5 then
              match words.get? 3 with
              | some (.bulkString tc) =>
                match words.get? 4 with
                | some (.bulkString tv) =>
                  if validUtf8 tc then
                    if validUtf8 tv then
                      match parseU128 tv with
                      | none => .err (.parseIntError tv)
                      | some ttl =>
                        if upperB tc = wEX then
                          .ok (okReply,
                            storageCreate st karg varg (some ((now + ttl * 1000 % U128) % U128)))
                        else if upperB tc = wPX then
                          .ok (okReply, storageCreate st karg varg (some ((now + ttl) % U128)))
                        else .err (.wrongArg tc)
                    else .err (.fromUtf8 tv)
                  else .err (.fromUtf8 tc)
                | _ => .crash
              | _ => .crash
            else .ok (okReply, storageCreate st karg varg none)
          else .err (.fromUtf8 varg)
        else .err (.fromUtf8 karg)
      | _ => .crash
    | _ => .crash
  else .crash

/-- `request_arr[i..j]` for the handler calls. -/
def sliceW (arr : List RValue) (i len : Nat) : List RValue := (arr.drop i).take len

/-- The dispatch loop of `handle_words` (`cmd.rs` lines 130-178).
`rem` is fuel initialised to the array length; the loop examines the
word at index `i`, uppercases it and matches it against the command
names; each matched command's reply is appended to `acc`, and the
cursor then advances by exactly one (`i += 1`) — it does *not* jump
past the words the command consumed.  The SET guard mirrors the Rust
`usize` conditions: `num_flattened >= 4 && i < num_flattened - 4`, then
`i < num_flattened - 2`, whose subtraction underflows (a panic in any
profile, since the release-mode wrapped comparison sends the huge bound
into an out-of-bounds slice) when the array has fewer than two words. -/
def handleWordsGo (now : Nat) (arr : List RValue) :
    Nat → Nat → Storage → List Nat → CmdOut (List Nat × Storage)
  | 0, _, st, acc => .ok (acc, st)
  | rem + 1, i, st, acc =>
    match arr[i]? with
    | none => .ok (acc, st)
    | some w =>
      match w with
      | .bulkString first =>
        let n := arr.length
        let u := upperB first
        if u = wECHO then
          if i < n - 1 then
            match handleEcho (sliceW arr i 2) with
            | .ok r => handleWordsGo now arr rem (i + 1) st (acc ++ r)
            | .err e => .err e
            | .crash => .crash
          else .err .missingArg
        else if u = wGET then
          if i < n - 1 then
            match handleGet (sliceW arr i 2) st now with
            | .ok (r, st') => handleWordsGo now arr rem (i + 1) st' (acc ++ r)
            | .err e => .err e
            | .crash => .crash
          else .err .missingArg
        else if u = wPING then
          if i < n - 1 then
            match arr.get? (i + 1) with
            | some (.bulkString word) =>
              if isCmd word then
                match handlePing (sliceW arr i 1) with
                | .ok r => handleWordsGo now arr rem (i + 1) st (acc ++ r)
                | .err e => .err e
                | .crash => .crash
              else
                match handlePing (sliceW arr i 2) with
                | .ok r => handleWordsGo now arr rem (i + 1) st (acc ++ r)
                | .err e => .err e
                | .crash => .crash
            | some _ => handleWordsGo now arr rem (i + 1) st acc
            | none => .crash
          else
            match handlePing (sliceW arr i 1) with
            | .ok r => handleWordsGo now arr rem (i + 1) st (acc ++ r)
            | .err e => .err e
            | .crash => .crash
        else if u = wSET then
          if 4 ≤ n ∧ i < n - 4 then
            match handleSet (sliceW arr i 5) st now with
            | .ok (r, st') => handleWordsGo now arr rem (i + 1) st' (acc ++ r)
            | .err e => .err e
            | .crash => .crash
          else if n < 2 then .crash
          else if i < n - 2 then
            match handleSet (sliceW arr i 3) st now with
            | .ok (r, st') => handleWordsGo now arr rem (i + 1) st' (acc ++ r)
            | .err e => .err e
            | .crash => .crash
          else .err .missingArg
        else handleWordsGo now arr rem (i + 1) st acc
      | _ => .crash

/-- `handle_words` (`cmd.rs`): run the dispatch loop from index 0 with
an empty output buffer. -/
def handleWords (st : Storage) (now : Nat) (arr : List RValue) :
    CmdOut (List Nat × Storage) :=
  handleWordsGo now arr arr.length 0 st []

/-- Whether a value is a `Value::BulkString` (the `is_enum_variant!` check). -/
def isBulk : RValue → Bool
  | .bulkString _ => true
  | _ => false

/-- `handle_request` (`cmd.rs` lines 65-110): reject inputs shorter
than 2 bytes (`InputTooShort`, whose `String::from_utf8` payload
conversion can itself fail) and inputs whose final two bytes are not
CRLF; use `parse_len` to reject null arrays; deserialize; reject a
non-array top value, an empty array and any non-bulk-string element;
then dispatch the words. -/
def handleRequest (st : Storage) (now : Nat) (bytes : List Nat) :
    CmdOut (List Nat × Storage) :=
  if bytes.length < 2 then
    if validUtf8 bytes then .err (.inputTooShort bytes) else .err (.fromUtf8 bytes)
  else if ¬ (bytes.getD (bytes.length - 2) 0 = 13 ∧ bytes.getD (bytes.length - 1) 0 = 10) then
    .err .crlfNotAtEnd
  else
    match parseLen bytes with
    | .crash => .crash
    | .err e => .err (.respError e)
    | .ok (none, _) => .err .nullArray
    | .ok (some _, _) =>
      match deserialize bytes with
      | .crash => .crash
      | .err e => .err (.respError e)
      | .ok (v, _) =>
        match v with
        | .array l =>
          if l.isEmpty then .err .emptyArray
          else if l.all isBulk then handleWords st now l
          else .err .notAllBulk
        | _ => .err .cmdNotArray

/-! ## Connection handler (`conn.rs`, `constants.rs`) -/

/-- `constants.rs`: length of the per-connection read buffer. -/
def BUFFER_LEN : Nat := 512

/-- The request slices a connection forwards to `handle_request`
(`conn.rs` lines 34-52).  Each element of `reads` is the byte content
`buf[..n]` of one successful `stream.read` into the 512-byte buffer;
the handler forwards exactly that slice, one read at a time, with no
buffering across iterations.  A zero-length read (peer closed) breaks
the loop; an error or panic from `handle_request` ends the connection
task. -/
def connRequests (st : Storage) (now : Nat) : List (List Nat) → List (List Nat)
  | [] => []
  | r :: rest =>
    if r.length = 0 then []
    else
      r :: (match handleRequest st now r with
            | .ok (_, st') => connRequests st' now rest
            | _ => [])

/-- The UTF-8 bytes of an ASCII string literal (test/witness helper). -/
def strB (s : String) : List Nat := s.toList.map Char.toNat

/-! ## Canonical RESP encoding (C7)

The crate encodes replies only (simple strings, bulk strings, null
bulk string), so the general encoder is the refinement-side definition:
`canonicalEncode` is modelled from the spec's RESP descriptions
(section 4.1 / 6: `+text\r\n`, `-text\r\n`, `:[-]N\r\n`,
`$len\r\ndata\r\n`, `$-1\r\n`, `*N\r\n<elements>`, `*-1\r\n`)
and is compared against the source-derived `deserialize`. -/

/-- The canonical ASCII decimal bytes of an `i64`. -/
def intBytes (n : Int) : List Nat :=
  if n < 0 then 45 :: natDigits (-n).toNat else natDigits n.toNat

mutual
/-- Canonical RESP encoding of a value (spec-side definition for the
round-trip claim). -/
def canonicalEncode : RValue → List Nat
  | .simpleString s => 43 :: (s ++ [13, 10])
  | .error s => 45 :: (s ++ [13, 10])
  | .integer n => 58 :: (intBytes n ++ [13, 10])
  | .bulkString s => 36 :: (natDigits s.length ++ [13, 10] ++ s ++ [13, 10])
  | .nullBulkString => [36, 45, 49, 13, 10]
  | .array l => 42 :: (natDigits l.length ++ [13, 10] ++ encodeList l)
  | .nullArray => [42, 45, 49, 13, 10]

/-- Concatenated canonical encodings of array elements. -/
def encodeList : List RValue → List Nat
  | [] => []
  | v :: vs => canonicalEncode v ++ encodeList vs
end

mutual
/-- Node count of a value: a fuel lower bound for `deserializeF`. -/
def mu : RValue → Nat
  | .array l => 1 + muList l
  | _ => 1

/-- Sum of node counts of a list of values. -/
def muList : List RValue → Nat
  | [] => 0
  | v :: vs => mu v + muList vs
end

/-- The values constructible in the Rust `Value` type, in the claim's
amended domain: simple strings and errors without CR/LF, `i64`-range
integers, and byte lengths and element counts below `isize::MAX`
(`2^63`, the hard cap on any Rust allocation), with every byte below
256. -/
inductive Constructible : RValue → Prop where
  | simpleString (s : List Nat) : (∀ b ∈ s, b < 256) → 13 ∉ s → 10 ∉ s →
      Constructible (.simpleString s)
  | error (s : List Nat) : (∀ b ∈ s, b < 256) → 13 ∉ s → 10 ∉ s →
      Constructible (.error s)
  | integer (n : Int) : -(2 ^ 63) ≤ n → n < 2 ^ 63 → Constructible (.integer n)
  | bulkString (s : List Nat) : (∀ b ∈ s, b < 256) → s.length < 2 ^ 63 →
      Constructible (.bulkString s)
  | nullBulkString : Constructible .nullBulkString
  | nullArray : Constructible .nullArray
  | array (l : List RValue) : l.length < 2 ^ 63 → (∀ v ∈ l, Constructible v) →
      Constructible (.array l)

/-! ## Association-list lemmas -/

theorem alLookup_alInsert {β : Type} (m : List (List Nat × β)) (k k' : List Nat) (v : β) :
    alLookup (alInsert m k v) k' = if k = k' then some v else alLookup m k' := by
  induction m with
  | nil => simp [alInsert, alLookup]
  | cons p rest ih =>
    obtain ⟨k0, v0⟩ := p
    by_cases h0 : k0 = k
    · subst h0
      simp only [alInsert, if_pos rfl, alLookup]
      split_ifs with h
      · rfl
      · simp [alLookup, h]
    · simp only [alInsert, if_neg h0, alLookup]
      by_cases h1 : k0 = k'
      · have h2 : ¬ k = k' := fun hc => h0 (h1.trans hc.symm)
        rw [if_pos h1, if_neg h2, if_pos h1]
      · rw [if_neg h1, ih, if_neg h1]

theorem alLookup_alRemove {β : Type} (m : List (List Nat × β)) (k k' : List Nat) :
    alLookup (alRemove m k) k' = if k = k' then none else alLookup m k' := by
  induction m with
  | nil => simp [alRemove, alLookup]
  | cons p rest ih =>
    obtain ⟨k0, v0⟩ := p
    by_cases h0 : k0 = k
    · subst h0
      have hr : alRemove ((k0, v0) :: rest) k0 = alRemove rest k0 := by simp [alRemove]
      rw [hr, ih]
      simp only [alLookup]
      split_ifs with h <;> rfl
    · simp only [alRemove, if_neg h0, alLookup]
      by_cases h1 : k0 = k'
      · have h2 : ¬ k = k' := fun hc => h0 (h1.trans hc.symm)
        rw [if_pos h1, if_neg h2, if_pos h1]
      · rw [if_neg h1, ih, if_neg h1]

theorem mem_alInsert {β : Type} {m : List (List Nat × β)} {k : List Nat} {v : β}
    {p : List Nat × β} (h : p ∈ alInsert m k v) : p = (k, v) ∨ p ∈ m := by
  induction m with
  | nil => simpa [alInsert] using h
  | cons q rest ih =>
    obtain ⟨k0, v0⟩ := q
    by_cases h0 : k0 = k
    · simp only [alInsert, h0, if_pos rfl] at h
      rcases List.mem_cons.mp h with h1 | h1
      · exact Or.inl h1
      · exact Or.inr (List.mem_cons_of_mem _ h1)
    · simp only [alInsert, if_neg h0] at h
      rcases List.mem_cons.mp h with h1 | h1
      · exact Or.inr (by simp [h1])
      · rcases ih h1 with h2 | h2
        · exact Or.inl h2
        · exact Or.inr (List.mem_cons_of_mem _ h2)

theorem mem_alRemove {β : Type} {m : List (List Nat × β)} {k : List Nat}
    {p : List Nat × β} (h : p ∈ alRemove m k) : p ∈ m := by
  induction m with
  | nil => simp [alRemove] at h
  | cons q rest ih =>
    obtain ⟨k0, v0⟩ := q
    by_cases h0 : k0 = k
    · simp only [alRemove, if_pos h0] at h
      exact List.mem_cons_of_mem _ (ih h)
    · simp only [alRemove, if_neg h0] at h
      rcases List.mem_cons.mp h with h1 | h1
      · simp [h1]
      · exact List.mem_cons_of_mem _ (ih h1)

/-! ## Storage invariants -/

/-- The C8 invariant: every key of the expiry map is a key of the primary map. -/
def keSubsetKv (st : Storage) : Prop :=
  ∀ k : List Nat, (alLookup st.ke k).isSome → (alLookup st.kv k).isSome

/-- The C9 invariant: every value stored in the expiry map is `Some`. -/
def keAllSome (st : Storage) : Prop :=
  ∀ p ∈ st.ke, p.2.isSome = true

theorem keSubsetKv_create {st : Storage} (h : keSubsetKv st) (k v : List Nat)
    (e : Option Nat) : keSubsetKv (storageCreate st k v e) := by
  intro k' hk'
  by_cases hkk : k = k'
  · simp [storageCreate, alLookup_alInsert, hkk]
  · cases e with
    | none =>
      simp only [storageCreate, Option.isSome_none, Bool.false_eq_true, if_false] at hk' ⊢
      rw [alLookup_alInsert, if_neg hkk]
      exact h k' hk'
    | some t =>
      simp only [storageCreate, Option.isSome_some, if_true] at hk' ⊢
      rw [alLookup_alInsert, if_neg hkk] at hk'
      rw [alLookup_alInsert, if_neg hkk]
      exact h k' hk'

theorem keSubsetKv_delete {st : Storage} (h : keSubsetKv st) (k : List Nat) :
    keSubsetKv (storageDelete st k) := by
  intro k' hk'
  by_cases hkk : k = k'
  · rw [storageDelete] at hk'
    simp only at hk'
    rw [alLookup_alRemove, if_pos hkk] at hk'
    simp at hk'
  · rw [storageDelete] at hk' ⊢
    simp only at hk' ⊢
    rw [alLookup_alRemove, if_neg hkk] at hk'
    rw [alLookup_alRemove, if_neg hkk]
    exact h k' hk'

theorem keSubsetKv_getEffect {st : Storage} (h : keSubsetKv st) (k : List Nat) (now : Nat) :
    keSubsetKv (getEffect st k now) := by
  unfold getEffect
  cases hr : storageRead st k with
  | none => exact h
  | some p =>
    obtain ⟨v, e⟩ := p
    cases e with
    | none => exact h
    | some t =>
      by_cases hn : now > t
      · simpa [hn] using keSubsetKv_delete h k
      · simpa [hn] using h

theorem keSubsetKv_sweepGo {l : List (List Nat × Option Nat)} :
    ∀ {st st' : Storage} (now : Nat), sweepGo now l st = some st' → keSubsetKv st →
      keSubsetKv st' := by
  induction l with
  | nil => intro st st' now hs h; simp [sweepGo] at hs; rwa [← hs]
  | cons p rest ih =>
    intro st st' now hs h
    obtain ⟨k, e⟩ := p
    cases e with
    | none => simp [sweepGo] at hs
    | some t =>
      simp only [sweepGo] at hs
      by_cases hn : now > t
      · rw [if_pos hn] at hs
        exact ih now hs (keSubsetKv_delete h k)
      · rw [if_neg hn] at hs
        exact ih now hs h

theorem keAllSome_create {st : Storage} (h : keAllSome st) (k v : List Nat)
    (e : Option Nat) : keAllSome (storageCreate st k v e) := by
  intro p hp
  cases e with
  | none => exact h p (by simpa [storageCreate] using hp)
  | some t =>
    simp only [storageCreate, Option.isSome_some, if_true] at hp
    rcases mem_alInsert hp with h1 | h1
    · simp [h1]
    · exact h p h1

theorem keAllSome_delete {st : Storage} (h : keAllSome st) (k : List Nat) :
    keAllSome (storageDelete st k) := by
  intro p hp
  exact h p (mem_alRemove (by simpa [storageDelete] using hp))

theorem keAllSome_getEffect {st : Storage} (h : keAllSome st) (k : List Nat) (now : Nat) :
    keAllSome (getEffect st k now) := by
  unfold getEffect
  cases hr : storageRead st k with
  | none => exact h
  | some p =>
    obtain ⟨v, e⟩ := p
    cases e with
    | none => exact h
    | some t =>
      by_cases hn : now > t
      · simpa [hn] using keAllSome_delete h k
      · simpa [hn] using h

theorem keAllSome_sweepGo {l : List (List Nat × Option Nat)} :
    ∀ {st st' : Storage} (now : Nat), sweepGo now l st = some st' → keAllSome st →
      keAllSome st' := by
  induction l with
  | nil => intro st st' now hs h; simp [sweepGo] at hs; rwa [← hs]
  | cons p rest ih =>
    intro st st' now hs h
    obtain ⟨k, e⟩ := p
    cases e with
    | none => simp [sweepGo] at hs
    | some t =>
      simp only [sweepGo] at hs
      by_cases hn : now > t
      · rw [if_pos hn] at hs
        exact ih now hs (keAllSome_delete h k)
      · rw [if_neg hn] at hs
        exact ih now hs h

theorem reachable_keSubsetKv {s : Storage} (h : Reachable s) : keSubsetKv s := by
  induction h with
  | empty => intro k hk; simp [emptyStorage, alLookup] at hk
  | create k v e _ ih => exact keSubsetKv_create ih k v e
  | delete k _ ih => exact keSubsetKv_delete ih k
  | passive k now _ ih => exact keSubsetKv_getEffect ih k now
  | sweep now _ hs ih => exact keSubsetKv_sweepGo now hs ih

theorem reachable_keAllSome {s : Storage} (h : Reachable s) : keAllSome s := by
  induction h with
  | empty => intro p hp; simp [emptyStorage] at hp
  | create k v e _ ih => exact keAllSome_create ih k v e
  | delete k _ ih => exact keAllSome_delete ih k
  | passive k now _ ih => exact keAllSome_getEffect ih k now
  | sweep now _ hs ih => exact keAllSome_sweepGo now hs ih

theorem sweepGo_isSome {l : List (List Nat × Option Nat)} :
    ∀ (st : Storage) (now : Nat), (∀ p ∈ l, p.2.isSome = true) →
      (sweepGo now l st).isSome = true := by
  induction l with
  | nil => intro st now _; simp [sweepGo]
  | cons p rest ih =>
    intro st now h
    obtain ⟨k, e⟩ := p
    cases e with
    | none => exact absurd (h (k, none) (List.mem_cons_self _ _)) (by simp)
    | some t =>
      simp only [sweepGo]
      exact ih _ now fun q hq => h q (List.mem_cons_of_mem _ hq)

/-- C2: the claim states that `create(k, v, None)` (SET with no TTL
clause) removes `k` from the expiry map, as the handler's own
documentation and the repository's test
`handle_request_set_07_set_px_set_get_on_time_should_not_expire`
require.  The code does not: `create` touches the expiry map only when
the new expiry is `Some`, so a stale TTL survives a plain SET.  This
theorem evaluates the code at the failing input: after
`create(k, v, Some 100)` followed by `create(k, v2, None)`, the expiry
map still holds `100` for `k`, and a read at `now > 100` therefore sees
an expired key. -/
theorem c2_set_keeps_stale_expiry_eval :
    alLookup (storageCreate (storageCreate emptyStorage (strB "k") (strB "v") (some 100))
      (strB "k") (strB "v2") none).ke (strB "k") = some (some 100) ∧
    storageRead (storageCreate (storageCreate emptyStorage (strB "k") (strB "v") (some 100))
      (strB "k") (strB "v2") none) (strB "k") = some (strB "v2", some 100) := by
  exact ⟨by decide, by decide⟩

/-- C3: the claim states that `handle_request` never panics and returns
a typed recoverable error on any malformed input.  Evaluating the
embedded code at the claim's own example inputs shows the opposite: the
request `*1\r\n:--1\r\n` (an array whose integer element starts with a
double sign) aborts through
`expect("Expected some length; got None (-1).")` in
`deserialize_integer`, and `*1\r\n$9\r\nab\r\n` (a bulk string whose
declared length exceeds the remaining buffer) aborts through the
out-of-range `Bytes::slice` in `deserialize_bulk_string`. -/
theorem c3_handle_request_crash_eval :
    handleRequest emptyStorage 0 (strB "*1\r\n:--1\r\n") = .crash ∧
    handleRequest emptyStorage 0 (strB "*1\r\n$9\r\nab\r\n") = .crash := by
  exact ⟨by decide, by decide⟩

/-- C8: starting from the empty storage, after every finite sequence of
`create`, `delete`, GET-driven passive deletion and eviction-sweep
operations, every key present in the expiry map is also present in the
primary map; and a key absent from the expiry map is read with no
expiry, so it is never treated as expiring. -/
theorem c8_expiry_subset_invariant :
    ∀ s : Storage, Reachable s →
      (∀ k : List Nat, (alLookup s.ke k).isSome → (alLookup s.kv k).isSome) ∧
      (∀ (k v : List Nat) (e : Option Nat),
        alLookup s.ke k = none → storageRead s k = some (v, e) → e = none) := by
  intro s hs
  refine ⟨reachable_keSubsetKv hs, ?_⟩
  intro k v e hke hr
  unfold storageRead at hr
  cases hkv : alLookup s.kv k with
  | none => rw [hkv] at hr; cases hr
  | some v0 =>
    rw [hkv, hke] at hr
    exact (Prod.mk.injEq .. ▸ (Option.some.injEq .. ▸ hr)).2.symm

/-- Companion instantiation of `c8_expiry_subset_invariant` at the
concrete reachable state `create(create(∅, k, v, Some 5), k2, v2, None)`. -/
theorem c8_expiry_subset_invariant_witness :
    (∀ k : List Nat,
      (alLookup (storageCreate (storageCreate emptyStorage (strB "k") (strB "v") (some 5))
        (strB "k2") (strB "v2") none).ke k).isSome →
      (alLookup (storageCreate (storageCreate emptyStorage (strB "k") (strB "v") (some 5))
        (strB "k2") (strB "v2") none).kv k).isSome) ∧
    (∀ (k v : List Nat) (e : Option Nat),
      alLookup (storageCreate (storageCreate emptyStorage (strB "k") (strB "v") (some 5))
        (strB "k2") (strB "v2") none).ke k = none →
      storageRead (storageCreate (storageCreate emptyStorage (strB "k") (strB "v") (some 5))
        (strB "k2") (strB "v2") none) k = some (v, e) → e = none) :=
  c8_expiry_subset_invariant _
    (Reachable.create _ _ _ (Reachable.create _ _ _ Reachable.empty))

/-- C9: in every storage state reachable through the storage engine's
operations from the empty storage, every value stored in the expiry map
is `Some` — `create` writes the expiry map only when the supplied
expiry is present — and therefore one pass of the eviction sweeper's
loop, whose `expiry.expect("Expected Some(expiry)")` is modelled by the
`none` outcome of `evictionSweep`, can never panic. -/
theorem c9_expiry_values_some :
    ∀ s : Storage, Reachable s →
      (∀ p ∈ s.ke, p.2.isSome = true) ∧
      (∀ now : Nat, (evictionSweep s now).isSome = true) ∧
      (∀ (st : Storage) (k v : List Nat), (storageCreate st k v none).ke = st.ke) := by
  intro s hs
  refine ⟨reachable_keAllSome hs, ?_, ?_⟩
  · intro now
    unfold evictionSweep
    exact sweepGo_isSome s now (reachable_keAllSome hs)
  · intro st k v
    simp [storageCreate]

/-- Companion instantiation of `c9_expiry_values_some` at the concrete
reachable state `create(∅, k, v, Some 5)`. -/
theorem c9_expiry_values_some_witness :
    (∀ p ∈ (storageCreate emptyStorage (strB "k") (strB "v") (some 5)).ke,
      p.2.isSome = true) ∧
    (∀ now : Nat,
      (evictionSweep (storageCreate emptyStorage (strB "k") (strB "v") (some 5)) now).isSome
        = true) ∧
    (∀ (st : Storage) (k v : List Nat), (storageCreate st k v none).ke = st.ke) :=
  c9_expiry_values_some _ (Reachable.create _ _ _ Reachable.empty)

/-- C10: the connection handler reads into a fixed 512-byte buffer
(`BUFFER_LEN`) and forwards exactly the bytes of one socket read to
`handle_request` as one complete request, so — since each read yields
at most `BUFFER_LEN` bytes — every request slice the router processes
is one whole read of at most 512 bytes; longer command frames only ever
reach the router as separate, independently validated fragments. -/
theorem c10_buffer_bound :
    ∀ (now : Nat) (reads : List (List Nat)) (st : Storage),
      (∀ r ∈ reads, r.length ≤ BUFFER_LEN) →
      ∀ q ∈ connRequests st now reads, q.length ≤ 512 ∧ q ∈ reads := by
  intro now reads
  induction reads with
  | nil => intro st _ q hq; simp [connRequests] at hq
  | cons r rest ih =>
    intro st h q hq
    simp only [connRequests] at hq
    by_cases hr0 : r.length = 0
    · rw [if_pos hr0] at hq
      cases hq
    · rw [if_neg hr0] at hq
      rcases List.mem_cons.mp hq with h1 | h1
      · subst h1
        refine ⟨?_, List.mem_cons_self _ _⟩
        have := h q (List.mem_cons_self _ _)
        simpa [BUFFER_LEN] using this
      · cases hh : handleRequest st now r with
        | ok p =>
          obtain ⟨resp, st'⟩ := p
          rw [hh] at h1
          have := ih st' (fun r' hr' => h r' (List.mem_cons_of_mem _ hr')) q h1
          exact ⟨this.1, List.mem_cons_of_mem _ this.2⟩
        | err e => rw [hh] at h1; cases h1
        | crash => rw [hh] at h1; cases h1

/-- Companion instantiation of `c10_buffer_bound` on a two-read
connection carrying a PING and a GET. -/
theorem c10_buffer_bound_witness :
    (strB "*2\r\n$3\r\nGET\r\n$1\r\nk\r\n").length ≤ 512 ∧
    (strB "*2\r\n$3\r\nGET\r\n$1\r\nk\r\n") ∈
      [strB "*1\r\n$4\r\nPING\r\n", strB "*2\r\n$3\r\nGET\r\n$1\r\nk\r\n"] :=
  c10_buffer_bound 0 [strB "*1\r\n$4\r\nPING\r\n", strB "*2\r\n$3\r\nGET\r\n$1\r\nk\r\n"]
    emptyStorage (by decide) _ (by decide)

/-! ## Router dispatch properties -/

theorem upperB_wECHO : upperB wECHO = wECHO := by decide
theorem upperB_wGET : upperB wGET = wGET := by decide
theorem upperB_wPING : upperB wPING = wPING := by decide
theorem upperB_wSET : upperB wSET = wSET := by decide

/-- A word that `is_cmd` rejects is uppercased to none of the four
command names. -/
theorem isCmd_false_elim {w : List Nat} (h : isCmd w = false) :
    upperB w ≠ wECHO ∧ upperB w ≠ wGET ∧ upperB w ≠ wPING ∧ upperB w ≠ wSET := by
  simp only [isCmd, COMMANDS, List.any_cons, List.any_nil, Bool.or_false,
    Bool.or_eq_false_iff, decide_eq_false_iff_not, upperB_wECHO, upperB_wGET,
    upperB_wPING, upperB_wSET] at h
  exact ⟨h.1, h.2.1, h.2.2.1, h.2.2.2⟩

/-- C1, counterexample: the claim says that after the pipelined request
`[ECHO, a]` dispatch resumes *after* `a` for all argument values
including ones that spell command names.  On the code, dispatch resumes
*at* `a`: for `[ECHO, PING]` the router emits the echo of `PING` and
then also dispatches the already-consumed argument as a PING command,
appending an extra `+PONG\r\n` — so the output is not just the echo
reply the claim predicts. -/
theorem c1_echo_ping_recheck_cex :
    handleWords emptyStorage 0 [.bulkString (strB "ECHO"), .bulkString (strB "PING")] =
      .ok (strB "$4\r\nPING\r\n+PONG\r\n", emptyStorage) ∧
    strB "$4\r\nPING\r\n+PONG\r\n" ≠ strB "$4\r\nPING\r\n" := by
  exact ⟨by decide, by decide⟩

/-- C1 (amended): each matched command consumes its fixed number of
words to build its reply, but the dispatch cursor advances by exactly
one word per iteration, so consumed argument words are re-examined as
potential commands.  An argument that spells a command name is
therefore dispatched again (see `c1_echo_ping_recheck_cex`); for
argument values that do not spell command names the observable
behaviour is the one the claim describes: `[ECHO, a]` produces exactly
the echo of `a`, and `[SET, k, v]` produces exactly `+OK\r\n` together
with the upsert of `k`. -/
theorem c1_cursor_amended :
    (∀ (st : Storage) (now : Nat) (e a : List Nat),
      upperB e = wECHO → validUtf8 a = true → isCmd a = false →
      handleWords st now [.bulkString e, .bulkString a] = .ok (bulkReply a, st)) ∧
    (∀ (st : Storage) (now : Nat) (s k v : List Nat),
      upperB s = wSET → validUtf8 k = true → validUtf8 v = true →
      isCmd k = false → isCmd v = false →
      handleWords st now [.bulkString s, .bulkString k, .bulkString v] =
        .ok (okReply, storageCreate st k v none)) := by
  constructor
  · intro st now e a he hva hca
    obtain ⟨ha1, ha2, ha3, ha4⟩ := isCmd_false_elim hca
    simp [handleWords, handleWordsGo, handleEcho, sliceW, he, hva, ha1, ha2, ha3, ha4]
  · intro st now s k v hs hvk hvv hck hcv
    obtain ⟨hk1, hk2, hk3, hk4⟩ := isCmd_false_elim hck
    obtain ⟨hv1, hv2, hv3, hv4⟩ := isCmd_false_elim hcv
    simp [handleWords, handleWordsGo, handleSet, sliceW, hs, hvk, hvv,
      hk1, hk2, hk3, hk4, hv1, hv2, hv3, hv4,
      show (wSET = wECHO) = False from by decide,
      show (wSET = wGET) = False from by decide,
      show (wSET = wPING) = False from by decide]

/-- Companion instantiation of `c1_cursor_amended`: `[EchO, Hey]`
yields exactly the echo of `Hey`. -/
theorem c1_cursor_amended_witness :
    handleWords emptyStorage 7 [.bulkString (strB "EchO"), .bulkString (strB "Hey")] =
      .ok (bulkReply (strB "Hey"), emptyStorage) :=
  c1_cursor_amended.1 emptyStorage 7 (strB "EchO") (strB "Hey") (by decide) (by decide)
    (by decide)

/-- C4: for every storage state and valid-UTF-8 key `k`, the GET
handler replies `$-1\r\n` when `k` is absent from the primary map;
`$<len>\r\n<value>\r\n` echoing the stored value exactly when `k` is
present without an expiry; and when `k` is present with expiry `t`, if
`now > t` it replies `$-1\r\n` and deletes `k` from both maps (passive
expiration, performed after the reply is formatted), otherwise it
replies with the value as a bulk string. -/
theorem c4_get_semantics :
    ∀ (st : Storage) (now : Nat) (w0 : RValue) (k : List Nat),
      validUtf8 k = true →
      (storageRead st k = none →
        handleGet [w0, .bulkString k] st now = .ok (nullBulkReply, st)) ∧
      (∀ v, storageRead st k = some (v, none) →
        handleGet [w0, .bulkString k] st now = .ok (bulkReply v, st)) ∧
      (∀ v t, storageRead st k = some (v, some t) → now > t →
        handleGet [w0, .bulkString k] st now = .ok (nullBulkReply, storageDelete st k) ∧
        alLookup (storageDelete st k).kv k = none ∧
        alLookup (storageDelete st k).ke k = none) ∧
      (∀ v t, storageRead st k = some (v, some t) → ¬ now > t →
        handleGet [w0, .bulkString k] st now = .ok (bulkReply v, st)) := by
  intro st now w0 k hvk
  refine ⟨?_, ?_, ?_, ?_⟩
  · intro hr
    simp [handleGet, hvk, hr]
  · intro v hr
    simp [handleGet, hvk, hr]
  · intro v t hr hn
    refine ⟨by simp [handleGet, hvk, hr, hn], ?_, ?_⟩
    · simp [storageDelete, alLookup_alRemove]
    · simp [storageDelete, alLookup_alRemove]
  · intro v t hr hn
    simp [handleGet, hvk, hr, hn]

/-- Companion instantiation of `c4_get_semantics` at a concrete state:
a key stored without TTL is echoed back, and an expired key is deleted
from both maps. -/
theorem c4_get_semantics_witness :
    handleGet [.bulkString (strB "GET"), .bulkString (strB "k")]
        (storageCreate emptyStorage (strB "k") (strB "v") none) 3 =
      .ok (bulkReply (strB "v"), storageCreate emptyStorage (strB "k") (strB "v") none) ∧
    handleGet [.bulkString (strB "GET"), .bulkString (strB "q")]
        (storageCreate emptyStorage (strB "q") (strB "w") (some 2)) 3 =
      .ok (nullBulkReply,
        storageDelete (storageCreate emptyStorage (strB "q") (strB "w") (some 2)) (strB "q")) :=
  ⟨((c4_get_semantics (storageCreate emptyStorage (strB "k") (strB "v") none) 3
      (.bulkString (strB "GET")) (strB "k") (by decide)).2.1 (strB "v") (by decide)),
   ((c4_get_semantics (storageCreate emptyStorage (strB "q") (strB "w") (some 2)) 3
      (.bulkString (strB "GET")) (strB "q") (by decide)).2.2.1 (strB "w") 2
      (by decide) (by decide)).1⟩

/-! ## `parse_len` lemmas -/

/-- Closed form of the exact (non-wrapping) decimal fold. -/
theorem decFold_closed (ds : List Nat) :
    ∀ a : Nat, ds.foldl (fun x d => x * 10 + (d - 48)) a =
      a * 10 ^ ds.length + decVal ds := by
  induction ds with
  | nil => intro a; simp [decVal]
  | cons d rest ih =>
    intro a
    simp only [List.foldl_cons, List.length_cons]
    rw [ih]
    have hd : decVal (d :: rest) = (d - 48) * 10 ^ rest.length + decVal rest := by
      simp only [decVal, List.foldl_cons]
      rw [show (0 * 10 + (d - 48)) = (d - 48) by omega]
      exact ih (d - 48) ▸ rfl
    rw [hd]
    ring

/-- The wrapping accumulator of `parse_len` computes the exact decimal
value reduced modulo `2^64`, provided the accumulator starts below the
modulus. -/
theorem decFoldMod_eq (ds : List Nat) :
    ∀ a : Nat, a < USIZE →
      ds.foldl (fun x d => (x * 10 + (d - 48)) % USIZE) a =
        (a * 10 ^ ds.length + decVal ds) % USIZE := by
  induction ds with
  | nil => intro a ha; simp [decVal, Nat.mod_eq_of_lt ha]
  | cons d rest ih =>
    intro a ha
    simp only [List.foldl_cons, List.length_cons]
    rw [ih ((a * 10 + (d - 48)) % USIZE) (Nat.mod_lt _ (by norm_num [USIZE]))]
    have hmod : ((a * 10 + (d - 48)) % USIZE * 10 ^ rest.length + decVal rest) % USIZE =
        ((a * 10 + (d - 48)) * 10 ^ rest.length + decVal rest) % USIZE :=
      ((Nat.mod_modEq (a * 10 + (d - 48)) USIZE).mul_right (10 ^ rest.length)).add_right
        (decVal rest)
    rw [hmod]
    have hd : decVal (d :: rest) = (d - 48) * 10 ^ rest.length + decVal rest := by
      simp only [decVal, List.foldl_cons]
      rw [show (0 * 10 + (d - 48)) = (d - 48) by omega]
      exact decFold_closed rest (d - 48)
    rw [hd]
    ring_nf

/-- Running the digit loop over a digit run terminated by CRLF: returns
the wrapped accumulated value and consumes the digits plus CRLF. -/
theorem parseLenLoop_digits (ds : List Nat) :
    ∀ (bytes rest : List Nat) (fuel i br acc : Nat),
      bytes.drop i = ds ++ 13 :: 10 :: rest →
      (∀ d ∈ ds, 48 ≤ d ∧ d ≤ 57) →
      ds.length + 1 ≤ fuel →
      parseLenLoop bytes fuel i br acc =
        .ok (some (ds.foldl (fun a d => (a * 10 + (d - 48)) % USIZE) acc),
             br + ds.length + 2) := by
  induction ds with
  | nil =>
    intro bytes rest fuel i br acc hdrop _ hfuel
    obtain ⟨f, rfl⟩ : ∃ f, fuel = f + 1 := ⟨fuel - 1, by omega⟩
    have h0 : bytes[i]? = some 13 := by
      have := List.getElem?_drop bytes i 0
      rw [hdrop] at this
      simpa using this.symm
    have h1 : bytes[i + 1]? = some 10 := by
      have := List.getElem?_drop bytes i 1
      rw [hdrop] at this
      simpa using this.symm
    simp [parseLenLoop, h0, h1, CR, LF]
  | cons d rest0 ih =>
    intro bytes rest fuel i br acc hdrop hdig hfuel
    simp only [List.length_cons] at hfuel
    obtain ⟨f, rfl⟩ : ∃ f, fuel = f + 1 := ⟨fuel - 1, by omega⟩
    have hd := hdig d (List.mem_cons_self _ _)
    have h0 : bytes[i]? = some d := by
      have := List.getElem?_drop bytes i 0
      rw [hdrop] at this
      simpa using this.symm
    have hdrop1 : bytes.drop (i + 1) = rest0 ++ 13 :: 10 :: rest := by
      have h := List.drop_drop 1 i bytes
      rw [hdrop] at h
      simpa using h.symm
    have hstep := ih bytes rest f (i + 1) (br + 1)
      ((acc * 10 + (d - 48)) % USIZE) hdrop1
      (fun x hx => hdig x (List.mem_cons_of_mem _ hx)) (by omega)
    simp only [parseLenLoop, h0]
    rw [if_neg (by simp [CR]; omega), if_neg (by omega)]
    rw [hstep]
    simp only [List.foldl_cons, List.length_cons]
    have harith : br + 1 + rest0.length + 2 = br + (rest0.length + 1) + 2 := by omega
    rw [harith]

/-- Running the digit loop into a non-digit, non-CR byte: the typed
error carries `bytes[1..]` up to and including the offending byte, as
an `IntegerParseError` when that payload is valid UTF-8 and as a
`FromUtf8Error` otherwise. -/
theorem parseLenLoop_nondigit (ds : List Nat) :
    ∀ (bytes rest : List Nat) (b fuel i br acc : Nat),
      bytes.drop i = ds ++ b :: rest →
      (∀ d ∈ ds, 48 ≤ d ∧ d ≤ 57) →
      (b < 48 ∨ 57 < b) → b ≠ 13 →
      ds.length + 1 ≤ fuel →
      parseLenLoop bytes fuel i br acc =
        (if validUtf8 ((bytes.drop 1).take (br + ds.length)) then
          .err (.integerParseError ((bytes.drop 1).take (br + ds.length)))
        else .err (.fromUtf8Error ((bytes.drop 1).take (br + ds.length)))) := by
  induction ds with
  | nil =>
    intro bytes rest b fuel i br acc hdrop _ hnd hncr hfuel
    obtain ⟨f, rfl⟩ : ∃ f, fuel = f + 1 := ⟨fuel - 1, by omega⟩
    have h0 : bytes[i]? = some b := by
      have := List.getElem?_drop bytes i 0
      rw [hdrop] at this
      simpa using this.symm
    simp only [parseLenLoop, h0]
    rw [if_neg (by simp [CR]; omega), if_pos hnd]
    simp
  | cons d rest0 ih =>
    intro bytes rest b fuel i br acc hdrop hdig hnd hncr hfuel
    simp only [List.length_cons] at hfuel
    obtain ⟨f, rfl⟩ : ∃ f, fuel = f + 1 := ⟨fuel - 1, by omega⟩
    have hd := hdig d (List.mem_cons_self _ _)
    have h0 : bytes[i]? = some d := by
      have := List.getElem?_drop bytes i 0
      rw [hdrop] at this
      simpa using this.symm
    have hdrop1 : bytes.drop (i + 1) = rest0 ++ b :: rest := by
      have h := List.drop_drop 1 i bytes
      rw [hdrop] at h
      simpa using h.symm
    have hstep := ih bytes rest b f (i + 1) (br + 1)
      ((acc * 10 + (d - 48)) % USIZE) hdrop1
      (fun x hx => hdig x (List.mem_cons_of_mem _ hx)) hnd hncr (by omega)
    simp only [parseLenLoop, h0]
    rw [if_neg (by simp [CR]; omega), if_neg (by omega)]
    rw [hstep]
    have : br + 1 + rest0.length = br + (rest0.length + 1) := by omega
    simp only [List.length_cons, this]

/-- Running the digit loop into a CR that is not followed by LF. -/
theorem parseLenLoop_noLF (ds : List Nat) :
    ∀ (bytes rest : List Nat) (b fuel i br acc : Nat),
      bytes.drop i = ds ++ 13 :: b :: rest →
      (∀ d ∈ ds, 48 ≤ d ∧ d ≤ 57) →
      b ≠ 10 →
      ds.length + 1 ≤ fuel →
      parseLenLoop bytes fuel i br acc = .err .lfMissing := by
  induction ds with
  | nil =>
    intro bytes rest b fuel i br acc hdrop _ hnlf hfuel
    obtain ⟨f, rfl⟩ : ∃ f, fuel = f + 1 := ⟨fuel - 1, by omega⟩
    have h0 : bytes[i]? = some 13 := by
      have := List.getElem?_drop bytes i 0
      rw [hdrop] at this
      simpa using this.symm
    have h1 : bytes[i + 1]? = some b := by
      have := List.getElem?_drop bytes i 1
      rw [hdrop] at this
      simpa using this.symm
    simp [parseLenLoop, h0, h1, CR, LF, hnlf]
  | cons d rest0 ih =>
    intro bytes rest b fuel i br acc hdrop hdig hnlf hfuel
    simp only [List.length_cons] at hfuel
    obtain ⟨f, rfl⟩ : ∃ f, fuel = f + 1 := ⟨fuel - 1, by omega⟩
    have hd := hdig d (List.mem_cons_self _ _)
    have h0 : bytes[i]? = some d := by
      have := List.getElem?_drop bytes i 0
      rw [hdrop] at this
      simpa using this.symm
    have hdrop1 : bytes.drop (i + 1) = rest0 ++ 13 :: b :: rest := by
      have h := List.drop_drop 1 i bytes
      rw [hdrop] at h
      simpa using h.symm
    simp only [parseLenLoop, h0]
    rw [if_neg (by simp [CR]; omega), if_neg (by omega)]
    exact ih bytes rest b f (i + 1) (br + 1) _ hdrop1
      (fun x hx => hdig x (List.mem_cons_of_mem _ hx)) hnlf (by omega)

/-- C6, counterexample: two of the claim's clauses fail on the code.
First, a non-digit before the first CR does not always give an
integer-parse error: for `$\xFF\r\n` the scanned prefix `[0xFF]` is not
valid UTF-8, so the `?` inside `parse_len` yields
`RESPError::FromUtf8Error` instead.  Second, the `usize` length
accumulator wraps: for a 20-digit run encoding `2^64 + 1` the parsed
value is `1`, not the decimal value of the digits. -/
theorem c6_parse_len_cex :
    (¬ ∃ s, parseLen [36, 255, 13, 10] = .err (.integerParseError s)) ∧
    parseLen (36 :: (strB "18446744073709551617" ++ [13, 10])) = .ok (some 1, 23) ∧
    decVal (strB "18446744073709551617") = 18446744073709551617 := by
  refine ⟨?_, by decide, by decide⟩
  rintro ⟨s, h⟩
  rw [show parseLen [36, 255, 13, 10] = .err (.fromUtf8Error [255]) from by decide] at h
  simp at h

/-- C6 (amended): `parse_len` on `type byte ++ "-1\r\n" ++ …` returns
`(None, 5)`; on a type byte followed by a nonempty digit run, CR and LF
it returns `(Some(decimal value of the digits reduced modulo 2^64 — the
usize accumulator wraps), digits + 3)`; on a non-digit (other than a
leading `-`) before the first CR it fails with an integer-parse error
when the scanned bytes (after the type byte, through the offending
byte) are valid UTF-8 and with a UTF-8 conversion error otherwise; it
fails with a negative-length error when a leading `-` is not followed
exactly by `1` and CR, and with an LF-missing error when the byte after
the terminating CR is not LF (both after `-1` and after a digit run). -/
theorem c6_parse_len_amended :
    (∀ (b0 : Nat) (rest : List Nat),
      parseLen (b0 :: 45 :: 49 :: 13 :: 10 :: rest) = .ok (none, 5)) ∧
    (∀ (b0 : Nat) (ds rest : List Nat), ds ≠ [] → (∀ d ∈ ds, 48 ≤ d ∧ d ≤ 57) →
      parseLen (b0 :: (ds ++ 13 :: 10 :: rest)) =
        .ok (some (decVal ds % USIZE), ds.length + 3)) ∧
    (∀ (b0 b : Nat) (ds rest : List Nat), (∀ d ∈ ds, 48 ≤ d ∧ d ≤ 57) →
      (b < 48 ∨ 57 < b) → b ≠ 13 → (ds = [] → b ≠ 45) →
      parseLen (b0 :: (ds ++ b :: rest)) =
        (if validUtf8 (ds ++ [b]) then .err (.integerParseError (ds ++ [b]))
         else .err (.fromUtf8Error (ds ++ [b])))) ∧
    (∀ (b0 b2 : Nat) (rest : List Nat), b2 ≠ 49 →
      parseLen (b0 :: 45 :: b2 :: rest) = .err .negativeLength) ∧
    (∀ (b0 b3 : Nat) (rest : List Nat), b3 ≠ 13 →
      parseLen (b0 :: 45 :: 49 :: b3 :: rest) = .err .negativeLength) ∧
    (∀ (b0 b4 : Nat) (rest : List Nat), b4 ≠ 10 →
      parseLen (b0 :: 45 :: 49 :: 13 :: b4 :: rest) = .err .lfMissing) ∧
    (∀ (b0 b : Nat) (ds rest : List Nat), (∀ d ∈ ds, 48 ≤ d ∧ d ≤ 57) → b ≠ 10 →
      parseLen (b0 :: (ds ++ 13 :: b :: rest)) = .err .lfMissing) := by
  refine ⟨?_, ?_, ?_, ?_, ?_, ?_, ?_⟩
  · intro b0 rest
    simp [parseLen, CR, LF]
  · intro b0 ds rest hne hdig
    obtain ⟨d, ds', rfl⟩ := List.exists_cons_of_ne_nil hne
    have hd := hdig d (List.mem_cons_self _ _)
    have hloop := parseLenLoop_digits (d :: ds') (b0 :: ((d :: ds') ++ 13 :: 10 :: rest))
      rest (b0 :: ((d :: ds') ++ 13 :: 10 :: rest)).length 1 1 0 (by simp) hdig
      (by simp only [List.length_cons, List.length_append]; omega)
    simp only [parseLen, List.cons_append, List.getElem?_cons_succ,
      List.getElem?_cons_zero]
    rw [if_neg (by omega)]
    simp only [List.cons_append] at hloop
    rw [hloop]
    rw [decFoldMod_eq (d :: ds') 0 (by norm_num [USIZE])]
    simp only [Nat.zero_mul, Nat.zero_add, List.length_cons]
    congr 2
    omega
  · intro b0 b ds rest hdig hnd hncr hne45
    match ds with
    | [] =>
      have hb45 := hne45 rfl
      have hloop := parseLenLoop_nondigit [] (b0 :: ([] ++ b :: rest)) rest b
        (b0 :: ([] ++ b :: rest)).length 1 1 0 (by simp) (by simp) hnd hncr (by simp)
      simp only [List.nil_append] at hloop ⊢
      simp only [parseLen, List.getElem?_cons_succ, List.getElem?_cons_zero]
      rw [if_neg hb45, hloop]
      simp
    | d :: ds' =>
      have hd := hdig d (List.mem_cons_self _ _)
      have hloop := parseLenLoop_nondigit (d :: ds') (b0 :: ((d :: ds') ++ b :: rest))
        rest b (b0 :: ((d :: ds') ++ b :: rest)).length 1 1 0 (by simp) hdig hnd hncr
        (by simp only [List.length_cons, List.length_append]; omega)
      simp only [parseLen, List.cons_append, List.getElem?_cons_succ,
        List.getElem?_cons_zero]
      rw [if_neg (by omega)]
      simp only [List.cons_append] at hloop
      rw [hloop]
      have htake : (d :: (ds' ++ b :: rest)).take (1 + (d :: ds').length) =
          (d :: ds') ++ [b] := by
        have h1 : 1 + (d :: ds').length = (d :: ds').length + 1 := by omega
        rw [h1, show d :: (ds' ++ b :: rest) = (d :: ds') ++ b :: rest by simp]
        simpa using (List.take_append 1 :
          ((d :: ds') ++ b :: rest).take ((d :: ds').length + 1) = _)
      simp only [List.drop_succ_cons, List.drop_zero, htake]
      simp [List.cons_append]
  · intro b0 b2 rest hb2
    simp [parseLen, CR, hb2]
  · intro b0 b3 rest hb3
    simp [parseLen, CR, hb3]
  · intro b0 b4 rest hb4
    simp [parseLen, CR, LF, hb4]
  · intro b0 b ds rest hdig hb
    match ds with
    | [] =>
      have hloop := parseLenLoop_noLF [] (b0 :: ([] ++ 13 :: b :: rest)) rest b
        (b0 :: ([] ++ 13 :: b :: rest)).length 1 1 0 (by simp) (by simp) hb (by simp)
      simp only [List.nil_append] at hloop ⊢
      simp only [parseLen, List.getElem?_cons_succ, List.getElem?_cons_zero]
      rw [if_neg (by omega), hloop]
    | d :: ds' =>
      have hd := hdig d (List.mem_cons_self _ _)
      have hloop := parseLenLoop_noLF (d :: ds') (b0 :: ((d :: ds') ++ 13 :: b :: rest))
        rest b (b0 :: ((d :: ds') ++ 13 :: b :: rest)).length 1 1 0 (by simp) hdig hb
        (by simp only [List.length_cons, List.length_append]; omega)
      simp only [parseLen, List.cons_append, List.getElem?_cons_succ,
        List.getElem?_cons_zero]
      rw [if_neg (by omega)]
      simpa using hloop

/-- Companion instantiation of `c6_parse_len_amended`: `$12\r\n`
parses to `(Some 12, 5)`. -/
theorem c6_parse_len_amended_witness :
    parseLen (36 :: ([49, 50] ++ 13 :: 10 :: [])) =
      .ok (some (decVal [49, 50] % USIZE), [49, 50].length + 3) :=
  c6_parse_len_amended.2.1 36 [49, 50] [] (by decide) (by decide)

/-! ## `handle_request` validation (C5) -/

/-- The digit loop of `parse_len` stays within the buffer whenever the
buffer ends in CRLF: scanning from any position in range, the loop
meets the final CR (or an earlier non-digit) before running off the
end. -/
theorem parseLenLoop_ne_crash (bytes : List Nat)
    (h2 : 2 ≤ bytes.length)
    (_hcr : bytes[bytes.length - 2]? = some 13)
    (hlf : bytes[bytes.length - 1]? = some 10) :
    ∀ (fuel i br acc : Nat), 1 ≤ i → i ≤ bytes.length - 1 →
      bytes.length - i ≤ fuel →
      parseLenLoop bytes fuel i br acc ≠ .crash := by
  intro fuel
  induction fuel with
  | zero => intro i br acc h1 hi hf; omega
  | succ f ih =>
    intro i br acc h1 hi hf
    have hilt : i < bytes.length := by omega
    obtain ⟨b, hb⟩ : ∃ b, bytes[i]? = some b := ⟨_, List.getElem?_eq_getElem hilt⟩
    simp only [parseLenLoop, hb]
    by_cases hbcr : b = CR
    · have hne : i ≠ bytes.length - 1 := by
        intro he
        rw [he, hlf] at hb
        rw [hbcr] at hb
        simp [CR] at hb
      have hi1 : i + 1 < bytes.length := by omega
      obtain ⟨b1, hb1⟩ : ∃ c, bytes[i + 1]? = some c := ⟨_, List.getElem?_eq_getElem hi1⟩
      rw [if_pos hbcr]
      simp only [hb1]
      split_ifs <;> simp
    · rw [if_neg hbcr]
      by_cases hdig : b < 48 ∨ 57 < b
      · rw [if_pos hdig]
        split_ifs <;> simp
      · rw [if_neg hdig]
        have hne : i ≠ bytes.length - 1 := by
          intro he
          rw [he, hlf] at hb
          have : b = 10 := by simpa using hb.symm
          omega
        exact ih (i + 1) (br + 1) _ (by omega) (by omega) (by omega)

/-- `parse_len` cannot fault on a buffer of length at least 2 that ends
in CRLF (the situation in which `handle_request` calls it). -/
theorem parseLen_ne_crash (bytes : List Nat)
    (h2 : 2 ≤ bytes.length)
    (hcr : bytes[bytes.length - 2]? = some 13)
    (hlf : bytes[bytes.length - 1]? = some 10) :
    parseLen bytes ≠ .crash := by
  have h1lt : 1 < bytes.length := by omega
  obtain ⟨b, hb⟩ : ∃ b, bytes[1]? = some b := ⟨_, List.getElem?_eq_getElem h1lt⟩
  simp only [parseLen, hb]
  by_cases hb45 : b = 45
  · rw [if_pos hb45]
    have hne1 : (1 : Nat) ≠ bytes.length - 1 := by
      intro he
      rw [he, hlf] at hb
      rw [hb45] at hb
      simp at hb
    have h2lt : 2 < bytes.length := by omega
    obtain ⟨b2, hb2⟩ : ∃ c, bytes[2]? = some c := ⟨_, List.getElem?_eq_getElem h2lt⟩
    simp only [hb2]
    by_cases h49 : b2 = 49
    · rw [if_pos h49]
      have hne2 : (2 : Nat) ≠ bytes.length - 1 := by
        intro he
        rw [he, hlf] at hb2
        rw [h49] at hb2
        simp at hb2
      have h3lt : 3 < bytes.length := by omega
      obtain ⟨b3, hb3⟩ : ∃ c, bytes[3]? = some c := ⟨_, List.getElem?_eq_getElem h3lt⟩
      simp only [hb3]
      by_cases hcr3 : b3 = CR
      · rw [if_pos hcr3]
        have hne3 : (3 : Nat) ≠ bytes.length - 1 := by
          intro he
          rw [he, hlf] at hb3
          rw [hcr3] at hb3
          simp [CR] at hb3
        have h4lt : 4 < bytes.length := by omega
        obtain ⟨b4, hb4⟩ : ∃ c, bytes[4]? = some c := ⟨_, List.getElem?_eq_getElem h4lt⟩
        simp only [hb4]
        split_ifs <;> simp
      · rw [if_neg hcr3]; simp
    · rw [if_neg h49]; simp
  · rw [if_neg hb45]
    exact parseLenLoop_ne_crash bytes h2 hcr hlf bytes.length 1 1 0 (le_refl 1)
      (by omega) (by omega)

/-- C5: `handle_request` returns a request-level error and produces no
reply (no command is dispatched) whenever the input is shorter than 2
bytes, or its final two bytes are not CR followed by LF, or it decodes
to a null array, to a value that is not an array, to an empty array, or
to an array containing at least one element that is not a bulk
string. -/
theorem c5_request_validation :
    ∀ (st : Storage) (now : Nat) (bytes : List Nat),
      (bytes.length < 2 ∨
       (2 ≤ bytes.length ∧
         ¬ (bytes.getD (bytes.length - 2) 0 = 13 ∧ bytes.getD (bytes.length - 1) 0 = 10)) ∨
       (∃ v n, deserialize bytes = .ok (v, n) ∧
         (v = .nullArray ∨ (∀ l, v ≠ .array l) ∨ v = .array [] ∨
          (∃ l, v = .array l ∧ ∃ w ∈ l, isBulk w = false)))) →
      ∃ e, handleRequest st now bytes = .err e := by
  intro st now bytes h
  by_cases hlen : bytes.length < 2
  · simp only [handleRequest, if_pos hlen]
    split_ifs <;> exact ⟨_, rfl⟩
  · by_cases hcrlf : bytes.getD (bytes.length - 2) 0 = 13 ∧
        bytes.getD (bytes.length - 1) 0 = 10
    · rcases h with h | h | h
      · exact absurd h hlen
      · exact absurd hcrlf h.2
      · obtain ⟨v, n, hdes, hbad⟩ := h
        have hl2 : bytes.length - 2 < bytes.length := by omega
        have hl1 : bytes.length - 1 < bytes.length := by omega
        have hcr : bytes[bytes.length - 2]? = some 13 := by
          have := List.getElem?_eq_getElem hl2
          rw [this]
          have hgd := hcrlf.1
          rw [List.getD_eq_getElem?_getD, this] at hgd
          simpa using hgd
        have hlf : bytes[bytes.length - 1]? = some 10 := by
          have := List.getElem?_eq_getElem hl1
          rw [this]
          have hgd := hcrlf.2
          rw [List.getD_eq_getElem?_getD, this] at hgd
          simpa using hgd
        simp only [handleRequest, if_neg hlen, if_neg (not_not_intro hcrlf)]
        cases hpl : parseLen bytes with
        | crash => exact absurd hpl (parseLen_ne_crash bytes (by omega) hcr hlf)
        | err e => exact ⟨.respError e, rfl⟩
        | ok p =>
          obtain ⟨lo, n2⟩ := p
          cases lo with
          | none => exact ⟨.nullArray, rfl⟩
          | some m =>
            rw [hdes]
            rcases hbad with h1 | h1 | h1 | h1
            · subst h1; exact ⟨.cmdNotArray, rfl⟩
            · cases v with
              | array l => exact absurd rfl (h1 l)
              | simpleString s => exact ⟨.cmdNotArray, rfl⟩
              | bulkString s => exact ⟨.cmdNotArray, rfl⟩
              | nullBulkString => exact ⟨.cmdNotArray, rfl⟩
              | integer m0 => exact ⟨.cmdNotArray, rfl⟩
              | nullArray => exact ⟨.cmdNotArray, rfl⟩
              | error s => exact ⟨.cmdNotArray, rfl⟩
            · subst h1; exact ⟨.emptyArray, rfl⟩
            · obtain ⟨l, rfl, w, hw, hwb⟩ := h1
              have hall : l.all isBulk = false := by
                cases hx : l.all isBulk
                · rfl
                · exact absurd (List.all_eq_true.mp hx w hw) (by simp [hwb])
              by_cases hemp : l.isEmpty
              · exact ⟨.emptyArray, by simp [hemp]⟩
              · refine ⟨.notAllBulk, ?_⟩
                simp only [Bool.not_eq_true] at hemp
                simp [hemp, hall]
    · refine ⟨.crlfNotAtEnd, ?_⟩
      simp only [handleRequest, if_neg hlen]
      rw [if_pos hcrlf]

/-- Companion instantiation of `c5_request_validation` at the empty
array `*0\r\n`. -/
theorem c5_request_validation_witness :
    ∃ e, handleRequest emptyStorage 0 (strB "*0\r\n") = .err e :=
  c5_request_validation emptyStorage 0 (strB "*0\r\n")
    (Or.inr (Or.inr ⟨.array [], 4, rfl, Or.inr (Or.inr (Or.inl rfl))⟩))

/-! ## Decimal-digit lemmas and the round trip (C7) -/

theorem digitsOfAux_spec :
    ∀ (fuel n : Nat), n < fuel →
      digitsOfAux fuel n ≠ [] ∧ (∀ d ∈ digitsOfAux fuel n, d < 10) ∧
      (digitsOfAux fuel n).foldl (fun a d => a * 10 + d) 0 = n := by
  intro fuel
  induction fuel with
  | zero => intro n h; omega
  | succ f ih =>
    intro n hn
    by_cases h10 : n < 10
    · refine ⟨by simp [digitsOfAux, h10], ?_, ?_⟩
      · intro d hd
        simp [digitsOfAux, h10] at hd
        omega
      · simp [digitsOfAux, h10]
    · have hrec := ih (n / 10) (by omega)
      simp only [digitsOfAux, if_neg h10]
      refine ⟨by simp, ?_, ?_⟩
      · intro d hd
        rcases List.mem_append.mp hd with h1 | h1
        · exact hrec.2.1 d h1
        · have : d = n % 10 := by simpa using h1
          omega
      · rw [List.foldl_append]
        simp only [List.foldl_cons, List.foldl_nil]
        rw [hrec.2.2]
        omega

theorem natDigits_spec (n : Nat) :
    natDigits n ≠ [] ∧ (∀ d ∈ natDigits n, 48 ≤ d ∧ d ≤ 57) ∧
      decVal (natDigits n) = n := by
  have h := digitsOfAux_spec (n + 1) n (by omega)
  unfold natDigits decVal
  refine ⟨by simpa using h.1, ?_, ?_⟩
  · intro d hd
    obtain ⟨d0, hd0, rfl⟩ := List.mem_map.mp hd
    have := h.2.1 d0 hd0
    omega
  · rw [List.foldl_map]
    simp only [Nat.add_sub_cancel]
    exact h.2.2

/-- `parse_len` on a type byte, a nonempty digit run and CRLF (the
general digit-run computation shared by several theorems). -/
theorem parseLen_digit_run (b0 : Nat) (ds rest : List Nat) (hne : ds ≠ [])
    (hdig : ∀ d ∈ ds, 48 ≤ d ∧ d ≤ 57) :
    parseLen (b0 :: (ds ++ 13 :: 10 :: rest)) =
      .ok (some (decVal ds % USIZE), ds.length + 3) := by
  obtain ⟨d, ds', rfl⟩ := List.exists_cons_of_ne_nil hne
  have hd := hdig d (List.mem_cons_self _ _)
  have hloop := parseLenLoop_digits (d :: ds') (b0 :: ((d :: ds') ++ 13 :: 10 :: rest))
    rest (b0 :: ((d :: ds') ++ 13 :: 10 :: rest)).length 1 1 0 (by simp) hdig
    (by simp only [List.length_cons, List.length_append]; omega)
  simp only [parseLen, List.cons_append, List.getElem?_cons_succ,
    List.getElem?_cons_zero]
  rw [if_neg (by omega)]
  simp only [List.cons_append] at hloop
  rw [hloop]
  rw [decFoldMod_eq (d :: ds') 0 (by norm_num [USIZE])]
  simp only [Nat.zero_mul, Nat.zero_add, List.length_cons]
  congr 2
  omega

/-- `parse_len` on a type byte followed by the canonical digits of
`n < 2^64`: the exact length comes back. -/
theorem parseLen_natDigits (b0 n : Nat) (rest : List Nat) (hn : n < USIZE) :
    parseLen (b0 :: (natDigits n ++ 13 :: 10 :: rest)) =
      .ok (some n, (natDigits n).length + 3) := by
  have h := natDigits_spec n
  rw [parseLen_digit_run b0 (natDigits n) rest h.1 h.2.1, h.2.2, Nat.mod_eq_of_lt hn]

theorem wrapI64_of_lt {m : Nat} (h : m < 2 ^ 63) : wrapI64 m = (m : Int) := by
  unfold wrapI64 USIZE
  rw [Nat.mod_eq_of_lt (lt_trans h (by norm_num))]
  rw [if_pos h]

theorem negWrap_wrapI64 {m : Nat} (h : m ≤ 2 ^ 63) :
    negWrapI64 (wrapI64 m) = -(m : Int) := by
  have e63 : (2 : Int) ^ 63 = 9223372036854775808 := by norm_num
  have e64 : (2 : Int) ^ 64 = 18446744073709551616 := by norm_num
  have f63 : (2 : Nat) ^ 63 = 9223372036854775808 := by norm_num
  unfold negWrapI64 wrapI64 USIZE
  rw [Nat.mod_eq_of_lt (lt_of_le_of_lt h (by norm_num))]
  by_cases h1 : m < 2 ^ 63
  · rw [if_pos h1]
    have hmi : (m : Int) < 2 ^ 63 := by exact_mod_cast h1
    rw [Int.emod_eq_of_lt (by omega) (by omega)]
    omega
  · have hm : m = 2 ^ 63 := by omega
    subst hm
    rw [if_neg h1]
    push_cast

theorem firstIdx_append_cons (t : Nat) (l1 l2 : List Nat) (h : t ∉ l1) :
    firstIdx t (l1 ++ t :: l2) = some l1.length := by
  induction l1 with
  | nil => simp [firstIdx]
  | cons a l ih =>
    have ha : a ≠ t := fun he => h (he ▸ List.mem_cons_self a l)
    have ha2 : ¬ a = t := ha
    simp only [List.cons_append, firstIdx, if_neg ha2, List.append_eq]
    rw [ih (fun hm => h (List.mem_cons_of_mem _ hm))]
    simp

theorem deserializeSimpleString_encode (b0 : Nat) (s rest : List Nat)
    (hb13 : b0 ≠ 13) (hb10 : b0 ≠ 10) (h13 : 13 ∉ s) (h10 : 10 ∉ s) :
    deserializeSimpleString (b0 :: (s ++ 13 :: 10 :: rest)) =
      .ok (.simpleString s, s.length + 3) := by
  have hshape1 : b0 :: (s ++ 13 :: 10 :: rest) = (b0 :: s) ++ 13 :: (10 :: rest) := by simp
  have hshape2 : b0 :: (s ++ 13 :: 10 :: rest) = (b0 :: (s ++ [13])) ++ 10 :: rest := by simp
  have hcr : firstIdx 13 (b0 :: (s ++ 13 :: 10 :: rest)) = some (s.length + 1) := by
    rw [hshape1]
    have := firstIdx_append_cons 13 (b0 :: s) (10 :: rest)
      (by simp only [List.mem_cons]; rintro (he | hm)
          · exact hb13 he.symm
          · exact h13 hm)
    simpa using this
  have hlf : firstIdx 10 (b0 :: (s ++ 13 :: 10 :: rest)) = some (s.length + 2) := by
    rw [hshape2]
    have := firstIdx_append_cons 10 (b0 :: (s ++ [13])) rest
      (by intro hm
          simp only [List.mem_cons, List.mem_append] at hm
          rcases hm with he | hs | he2
          · exact hb10 he.symm
          · exact h10 hs
          · simp at he2)
    simpa using this
  have hslice : sliceL (b0 :: (s ++ 13 :: 10 :: rest)) 1 (s.length + 1) = s := by
    simp only [sliceL, List.drop_succ_cons, List.drop_zero, Nat.add_sub_cancel]
    rw [show s ++ 13 :: 10 :: rest = s ++ (13 :: 10 :: rest) from rfl]
    exact List.take_left s _
  simp only [deserializeSimpleString, CR, LF, hcr, hlf]
  simp [hslice]

theorem deserializeError_encode (s rest : List Nat) (h13 : 13 ∉ s) (h10 : 10 ∉ s) :
    deserializeError (45 :: (s ++ 13 :: 10 :: rest)) = .ok (.error s, s.length + 3) := by
  simp only [deserializeError]
  rw [deserializeSimpleString_encode 45 s rest (by omega) (by omega) h13 h10]

theorem deserializeInteger_encode (n : Int) (rest : List Nat)
    (h1 : -(2 ^ 63) ≤ n) (h2 : n < 2 ^ 63) :
    deserializeInteger (58 :: (intBytes n ++ 13 :: 10 :: rest)) =
      .ok (.integer n, (intBytes n).length + 3) := by
  by_cases hn : n < 0
  · have hmle : (-n).toNat ≤ 2 ^ 63 := by omega
    have hmU : (-n).toNat < USIZE := lt_of_le_of_lt hmle (by norm_num [USIZE])
    have hv : -(((-n).toNat : Nat) : Int) = n := by omega
    simp only [intBytes, if_pos hn, List.cons_append]
    simp only [deserializeInteger, List.getElem?_cons_succ, List.getElem?_cons_zero]
    rw [if_neg (by omega)]
    rw [if_pos (by trivial)]
    simp only [List.drop_succ_cons, List.drop_zero]
    rw [parseLen_natDigits 45 ((-n).toNat) rest hmU]
    simp only [negWrap_wrapI64 hmle, hv, List.length_cons]
    have harith : 1 + ((natDigits (-n).toNat).length + 3) =
        (natDigits (-n).toNat).length + 1 + 3 := by omega
    rw [harith]
  · have hmlt : n.toNat < 2 ^ 63 := by omega
    have hmU : n.toNat < USIZE := lt_trans hmlt (by norm_num [USIZE])
    have hv : ((n.toNat : Nat) : Int) = n := by omega
    simp only [intBytes, if_neg hn]
    obtain ⟨d, ds', hds⟩ := List.exists_cons_of_ne_nil (natDigits_spec n.toNat).1
    have hd := (natDigits_spec n.toNat).2.1 d (hds ▸ List.mem_cons_self d ds')
    have h0 : (natDigits n.toNat ++ 13 :: 10 :: rest)[0]? = some d := by
      rw [hds]; simp
    simp only [deserializeInteger, List.getElem?_cons_succ, h0]
    rw [if_neg (by omega), if_neg (by omega)]
    rw [parseLen_natDigits 58 n.toNat rest hmU]
    simp only [wrapI64_of_lt hmlt, hv]

theorem deserializeBulkString_encode (s rest : List Nat) (hlen : s.length < 2 ^ 63) :
    deserializeBulkString (36 :: (natDigits s.length ++ 13 :: 10 :: (s ++ 13 :: 10 :: rest))) =
      .ok (.bulkString s, (natDigits s.length).length + 3 + s.length + 2) := by
  have hU : s.length < USIZE := lt_trans hlen (by norm_num [USIZE])
  simp only [deserializeBulkString]
  rw [parseLen_natDigits 36 s.length _ hU]
  have hfront : (36 : Nat) :: (natDigits s.length ++ 13 :: 10 :: (s ++ 13 :: 10 :: rest)) =
      (36 :: (natDigits s.length ++ [13, 10])) ++ (s ++ 13 :: 10 :: rest) := by simp
  have hflen : (36 :: (natDigits s.length ++ [13, 10])).length =
      (natDigits s.length).length + 3 := by simp
  have hle : (natDigits s.length).length + 3 + s.length ≤
      (36 :: (natDigits s.length ++ 13 :: 10 :: (s ++ 13 :: 10 :: rest))).length := by
    simp only [List.length_cons, List.length_append]
    omega
  have hslice : sliceL (36 :: (natDigits s.length ++ 13 :: 10 :: (s ++ 13 :: 10 :: rest)))
      ((natDigits s.length).length + 3) ((natDigits s.length).length + 3 + s.length) = s := by
    simp only [sliceL]
    rw [hfront, ← hflen, List.drop_left, Nat.add_sub_cancel_left]
    exact List.take_left s _
  simp only [hslice]
  simp only [List.length_cons, List.length_append]
  rw [if_pos (by omega)]

theorem deserializeBulkString_null (rest : List Nat) :
    deserializeBulkString ([36, 45, 49, 13, 10] ++ rest) = .ok (.nullBulkString, 5) := by
  rw [show [36, 45, 49, 13, 10] ++ rest = 36 :: 45 :: 49 :: 13 :: 10 :: rest by simp]
  simp [deserializeBulkString, parseLen, CR, LF]

theorem mu_pos (v : RValue) : 1 ≤ mu v := by
  cases v <;> simp [mu]

theorem mu_mem_le {v : RValue} {l : List RValue} (h : v ∈ l) : mu v ≤ muList l := by
  induction l with
  | nil => cases h
  | cons a t ih =>
    rcases List.mem_cons.mp h with rfl | h2
    · simp [muList]
    · have := ih h2
      simp only [muList]
      omega

mutual
theorem mu_le_encLen : (v : RValue) → mu v ≤ (canonicalEncode v).length
  | .simpleString s => by simp [mu, canonicalEncode]
  | .error s => by simp [mu, canonicalEncode]
  | .integer n => by simp [mu, canonicalEncode]
  | .bulkString s => by simp [mu, canonicalEncode]
  | .nullBulkString => by simp [mu, canonicalEncode]
  | .nullArray => by simp [mu, canonicalEncode]
  | .array l => by
    have h := muList_le_encListLen l
    simp only [mu, canonicalEncode, List.length_cons, List.length_append]
    omega

theorem muList_le_encListLen : (l : List RValue) → muList l ≤ (encodeList l).length
  | [] => by simp [muList, encodeList]
  | v :: vs => by
    have h1 := mu_le_encLen v
    have h2 := muList_le_encListLen vs
    simp only [muList, encodeList, List.length_append]
    omega
end

theorem deserializeElems_encode (l : List RValue) :
    ∀ (f : Nat) (bytes rest : List Nat) (offset : Nat),
      bytes.drop offset = encodeList l ++ rest →
      (∀ v ∈ l, ∀ r : List Nat, deserializeF f (canonicalEncode v ++ r) =
        .ok (v, (canonicalEncode v).length)) →
      deserializeElems (deserializeF f) l.length bytes offset =
        .ok (l, offset + (encodeList l).length) := by
  induction l with
  | nil =>
    intro f bytes rest offset hdrop _
    simp [deserializeElems, encodeList]
  | cons v vs ih =>
    intro f bytes rest offset hdrop hall
    have hv := hall v (List.mem_cons_self _ _)
    have hdropv : bytes.drop offset = canonicalEncode v ++ (encodeList vs ++ rest) := by
      rw [hdrop]
      simp [encodeList, List.append_assoc]
    have hdrop2 : bytes.drop (offset + (canonicalEncode v).length) =
        encodeList vs ++ rest := by
      rw [← List.drop_drop, hdropv]
      exact List.drop_left _ _
    simp only [List.length_cons, deserializeElems]
    rw [hdropv, hv (encodeList vs ++ rest)]
    simp only [ih f bytes rest (offset + (canonicalEncode v).length) hdrop2
      (fun w hw r => hall w (List.mem_cons_of_mem _ hw) r)]
    simp only [encodeList, List.length_append]
    have harith : offset + (canonicalEncode v).length + (encodeList vs).length =
        offset + ((canonicalEncode v).length + (encodeList vs).length) := by omega
    rw [harith]

theorem deserializeF_encode :
    ∀ (fuel : Nat) (v : RValue) (rest : List Nat), Constructible v → mu v ≤ fuel →
      deserializeF fuel (canonicalEncode v ++ rest) =
        .ok (v, (canonicalEncode v).length) := by
  intro fuel
  induction fuel with
  | zero =>
    intro v rest hc hmu
    have := mu_pos v
    omega
  | succ f ih =>
    intro v rest hc hmu
    cases hc with
    | simpleString s h256 h13 h10 =>
      rw [show canonicalEncode (.simpleString s) ++ rest = 43 :: (s ++ 13 :: 10 :: rest) by
        simp [canonicalEncode]]
      simp only [deserializeF, List.getElem?_cons_zero]
      rw [if_pos trivial]
      rw [deserializeSimpleString_encode 43 s rest (by omega) (by omega) h13 h10]
      simp [canonicalEncode]
    | error s h256 h13 h10 =>
      rw [show canonicalEncode (.error s) ++ rest = 45 :: (s ++ 13 :: 10 :: rest) by
        simp [canonicalEncode]]
      simp only [deserializeF, List.getElem?_cons_zero]
      rw [if_neg (by omega), if_neg (by omega), if_neg (by omega), if_neg (by omega),
        if_pos trivial]
      rw [deserializeError_encode s rest h13 h10]
      simp [canonicalEncode]
    | integer n hlo hhi =>
      rw [show canonicalEncode (.integer n) ++ rest = 58 :: (intBytes n ++ 13 :: 10 :: rest) by
        simp [canonicalEncode]]
      simp only [deserializeF, List.getElem?_cons_zero]
      rw [if_neg (by omega), if_neg (by omega), if_pos trivial]
      rw [deserializeInteger_encode n rest hlo hhi]
      simp [canonicalEncode]
    | bulkString s h256 hlen =>
      rw [show canonicalEncode (.bulkString s) ++ rest =
          36 :: (natDigits s.length ++ 13 :: 10 :: (s ++ 13 :: 10 :: rest)) by
        simp [canonicalEncode]]
      simp only [deserializeF, List.getElem?_cons_zero]
      rw [if_neg (by omega), if_pos trivial]
      rw [deserializeBulkString_encode s rest hlen]
      simp [canonicalEncode]
      omega
    | nullBulkString =>
      rw [show canonicalEncode .nullBulkString ++ rest = [36, 45, 49, 13, 10] ++ rest by
        simp [canonicalEncode]]
      rw [show ([36, 45, 49, 13, 10] : List Nat) ++ rest = 36 :: 45 :: 49 :: 13 :: 10 :: rest by
        simp]
      simp only [deserializeF, List.getElem?_cons_zero]
      rw [if_neg (by omega), if_pos trivial]
      rw [show (36 : Nat) :: 45 :: 49 :: 13 :: 10 :: rest =
        [36, 45, 49, 13, 10] ++ rest by simp]
      rw [deserializeBulkString_null rest]
      simp [canonicalEncode]
    | nullArray =>
      rw [show canonicalEncode .nullArray ++ rest = 42 :: 45 :: 49 :: 13 :: 10 :: rest by
        simp [canonicalEncode]]
      simp only [deserializeF, List.getElem?_cons_zero]
      rw [if_neg (by omega), if_neg (by omega), if_neg (by omega), if_pos trivial]
      rw [show parseLen (42 :: 45 :: 49 :: 13 :: 10 :: rest) = .ok (none, 5) by
        simp [parseLen, CR, LF]]
      simp [canonicalEncode]
    | array l hlen hall =>
      have hU : l.length < USIZE := lt_trans hlen (by norm_num [USIZE])
      rw [show canonicalEncode (.array l) ++ rest =
          42 :: (natDigits l.length ++ 13 :: 10 :: (encodeList l ++ rest)) by
        simp [canonicalEncode]]
      simp only [deserializeF, List.getElem?_cons_zero]
      rw [if_neg (by omega), if_neg (by omega), if_neg (by omega), if_pos trivial]
      rw [parseLen_natDigits 42 l.length (encodeList l ++ rest) hU]
      have hmuL : muList l ≤ f := by
        simp only [mu] at hmu
        omega
      have hdropfact :
          (42 :: (natDigits l.length ++ 13 :: 10 :: (encodeList l ++ rest))).drop
            ((natDigits l.length).length + 3) = encodeList l ++ rest := by
        rw [show (42 : Nat) :: (natDigits l.length ++ 13 :: 10 :: (encodeList l ++ rest)) =
            (42 :: (natDigits l.length ++ [13, 10])) ++ (encodeList l ++ rest) by simp]
        rw [show (natDigits l.length).length + 3 =
            (42 :: (natDigits l.length ++ [13, 10])).length by simp]
        exact List.drop_left _ _
      simp only [deserializeElems_encode l f _ rest ((natDigits l.length).length + 3)
        hdropfact (fun w hw r => ih w r (hall w hw) (le_trans (mu_mem_le hw) hmuL))]
      simp only [canonicalEncode, List.length_cons, List.length_append]
      have harith : (natDigits l.length).length + 3 + (encodeList l).length =
          (natDigits l.length).length + ([13, 10] : List Nat).length +
            (encodeList l).length + 1 := by simp; omega
      rw [harith]
      simp

/-- C7, counterexample: the claim exempts only simple strings from the
no-CR/LF restriction, but errors are decoded through the same
simple-string scanner, so an `Error` value containing a LF byte does
not round-trip: its canonical encoding `-\n\r\n` decodes to a
`CRLFNotAtEnd` framing error, not to the original value. -/
theorem c7_roundtrip_cex :
    deserialize (canonicalEncode (.error [10])) = .err .crlfNotAtEnd ∧
    ¬ (deserialize (canonicalEncode (.error [10])) =
        .ok (.error [10], (canonicalEncode (.error [10])).length)) := by
  have henc : canonicalEncode (.error [10]) = [45, 10, 13, 10] := by simp [canonicalEncode]
  constructor
  · rw [henc]
    rfl
  · rw [henc]
    intro h
    rw [show deserialize [45, 10, 13, 10] = .err .crlfNotAtEnd from rfl] at h
    exact RResult.noConfusion h

/-- C7 (amended): for every constructible value — simple string or
error without CR/LF, 64-bit signed integer, bulk string, null bulk
string, null array, or arbitrarily nested arrays of these (with byte
lengths and element counts below the Rust allocation bound `2^63`) —
deserializing the canonical RESP encoding returns exactly the pair of
the original value and the byte length of that encoding. -/
theorem c7_roundtrip_amended :
    ∀ v : RValue, Constructible v →
      deserialize (canonicalEncode v) = .ok (v, (canonicalEncode v).length) := by
  intro v hc
  unfold deserialize
  have h := deserializeF_encode (canonicalEncode v).length v [] hc (mu_le_encLen v)
  simpa using h

/-- Companion instantiation of `c7_roundtrip_amended` on the nested
value `["a", null]`. -/
theorem c7_roundtrip_amended_witness :
    deserialize (canonicalEncode (RValue.array [.bulkString [97], .nullBulkString])) =
      .ok (RValue.array [.bulkString [97], .nullBulkString],
        (canonicalEncode (RValue.array [.bulkString [97], .nullBulkString])).length) := by
  refine c7_roundtrip_amended _ ?_
  refine Constructible.array _ (by norm_num) ?_
  intro v hv
  fin_cases hv
  · exact Constructible.bulkString _ (by decide) (by norm_num)
  · exact Constructible.nullBulkString

/-! ## Sanity checks against the repository test vectors (`cmd.rs`, `resp.rs` tests) -/

example : deserialize [43, 79, 75, 13, 10] = .ok (.simpleString [79, 75], 5) := rfl
example : deserialize [36, 45, 49, 13, 10] = .ok (.nullBulkString, 5) := rfl
example : parseLen [36, 49, 50, 51, 52, 53, 54, 13, 10] = .ok (some 123456, 9) := rfl
example : parseLen [36, 45, 49, 13, 10] = .ok (none, 5) := rfl
example : deserialize [58, 45, 49, 48, 48, 48, 13, 10] = .ok (.integer (-1000), 8) := rfl
example : deserialize [58, 45, 45, 49, 13, 10] = .crash := rfl
example :
    deserialize [42, 50, 13, 10, 36, 53, 13, 10, 104, 101, 108, 108, 111, 13, 10,
      36, 53, 13, 10, 119, 111, 114, 108, 100, 13, 10] =
    .ok (.array [.bulkString [104, 101, 108, 108, 111], .bulkString [119, 111, 114, 108, 100]], 26) := rfl




example : handleRequest emptyStorage 0 (strB "*1\r\n$4\r\nPING\r\n") =
    .ok (strB "+PONG\r\n", emptyStorage) := by decide
example : handleRequest emptyStorage 0 (strB "*1\r\n$4\r\nPING") = .err .crlfNotAtEnd := by decide
example : handleRequest emptyStorage 0 (strB "$4\r\nPING\r\n") = .err .cmdNotArray := by decide
example : handleRequest emptyStorage 0 (strB "*3\r\n$4\r\nPinG\r\n$4\r\nPinG\r\n$4\r\nPinG\r\n") =
    .ok (strB "+PONG\r\n+PONG\r\n+PONG\r\n", emptyStorage) := by decide
example : handleRequest emptyStorage 0 (strB "*2\r\n$4\r\nPinG\r\n$13\r\nHello, world!\r\n") =
    .ok (strB "$13\r\nHello, world!\r\n", emptyStorage) := by decide
example : handleRequest emptyStorage 0 (strB "*2\r\n$4\r\nECHO\r\n$3\r\nHey\r\n") =
    .ok (strB "$3\r\nHey\r\n", emptyStorage) := by decide
example : handleRequest emptyStorage 0 (strB "*4\r\n$4\r\nEchO\r\n$3\r\nHey\r\n$4\r\nEchO\r\n$3\r\nHey\r\n") =
    .ok (strB "$3\r\nHey\r\n$3\r\nHey\r\n", emptyStorage) := by decide
example : handleRequest emptyStorage 0
      (strB "*5\r\n$4\r\nPinG\r\n$4\r\nEchO\r\n$15\r\nHey, what's up?\r\n$4\r\nPinG\r\n$13\r\nHello, world!\r\n") =
    .ok (strB "+PONG\r\n$15\r\nHey, what's up?\r\n$13\r\nHello, world!\r\n", emptyStorage) := by decide
example : handleRequest emptyStorage 0 (strB "*3\r\n$3\r\nSET\r\n$5\r\nKey01\r\n$7\r\nValue01\r\n") =
    .ok (strB "+OK\r\n", storageCreate emptyStorage (strB "Key01") (strB "Value01") none) := by decide
example :
    handleRequest (storageCreate emptyStorage (strB "Key01") (strB "Value01") none) 0
      (strB "*2\r\n$3\r\nGET\r\n$5\r\nKey01\r\n") =
    .ok (strB "$7\r\nValue01\r\n", storageCreate emptyStorage (strB "Key01") (strB "Value01") none) := by decide
example : handleRequest emptyStorage 0 (strB "*2\r\n$3\r\nGET\r\n$5\r\nApple\r\n") =
    .ok (strB "$-1\r\n", emptyStorage) := by decide
example : handleRequest emptyStorage 1000
      (strB "*5\r\n$3\r\nSET\r\n$5\r\nkey02\r\n$7\r\nvalue02\r\n$2\r\nPX\r\n$3\r\n100\r\n") =
    .ok (strB "+OK\r\n", storageCreate emptyStorage (strB "key02") (strB "value02") (some 1100)) := by decide
example : handleRequest emptyStorage 1000
      (strB "*5\r\n$3\r\nSET\r\n$5\r\nkey04\r\n$7\r\nvalue04\r\n$2\r\nex\r\n$2\r\n10\r\n") =
    .ok (strB "+OK\r\n", storageCreate emptyStorage (strB "key04") (strB "value04") (some 11000)) := by decide
example :
    handleRequest (storageCreate emptyStorage (strB "k") (strB "v") (some 1100)) 1200
      (strB "*2\r\n$3\r\nGET\r\n$1\r\nk\r\n") =
    .ok (strB "$-1\r\n", emptyStorage) := by decide
example : handleWords emptyStorage 0 [.bulkString (strB "ECHO"), .bulkString (strB "PING")] =
    .ok (strB "$4\r\nPING\r\n+PONG\r\n", emptyStorage) := by decide
example : handleRequest emptyStorage 0 (strB "*1\r\n:--1\r\n") = .crash := by decide
example : handleRequest emptyStorage 0 (strB "*1\r\n$9\r\nab\r\n") = .crash := by decide
example : handleRequest emptyStorage 0 (strB "*1\r\n$3\r\nSET\r\n") = .crash := by decide
